import Mathlib

/-!
Shallow embedding of the DataAnalysis workbench (src/workbench) for checking the
specification's claims about the trade lifecycle, risk engine, rebalance
planner, scoring, plan versioning and audit logging.

Conventions of the embedding:
* Monetary amounts and prices (Python floats) are modelled as exact rationals.
  The claims under check are arithmetic identities and threshold comparisons
  whose truth does not hinge on binary rounding at the concrete inputs used.
* The sqlite tables touched by the claims are modelled as fields of a `Store`
  value: `portfolio_accounts.cash`, `positions`, `sim_trades`, `sim_orders`,
  `audit_log`, the latest `bars_daily` row per instrument, and
  `risk_check_results`.  A single portfolio is modelled, so `portfolio_id`
  columns are dropped; uuid columns and timestamps are dropped as well since no
  claim mentions them.
* Python's sqlite3 connection context manager commits the open transaction on
  normal exit and rolls back on exception; nested uses of the same connection
  do not create savepoints, so an inner `with conn:` exit commits everything
  executed so far.  This is modelled by the `Tx` type: `Tx.working` is the
  uncommitted state, `Tx.snaps` the list of committed snapshots (most recent
  first), `Tx.commit` is executed exactly where the source leaves a
  `with self._conn:` block normally, and an exception abandons `working`,
  leaving the last committed snapshot.
-/

namespace Workbench

/-- Instrument key: (symbol, exchange), the key of `bars_daily` / `positions`. -/
abbrev Key := String × String

/-- A row of the `positions` table (qty, avg_cost). -/
structure PosRow where
  qty : Int
  avgCost : Rat
deriving DecidableEq, Repr

/-- A row of `sim_trades` (ids and timestamp dropped). -/
structure Trade where
  symbol : String
  exchange : String
  side : String
  fillPrice : Rat
  fillQty : Int
  fee : Rat
  slippage : Rat
deriving DecidableEq, Repr

/-- A row of `sim_orders` (order_id and created_at dropped). -/
structure SimOrder where
  status : String
  draftIds : List String
  filledQty : Int
  avgFillPrice : Option Rat
  feeTotal : Rat
  slippageTotal : Rat
deriving DecidableEq, Repr

/-- A row of `audit_log` (only the fields the claims mention: action and
entity_type; snapshots, versions, ids and timestamp dropped). -/
structure Audit where
  action : String
  entityType : String
deriving DecidableEq, Repr

/-- A finding appended to a risk check's items list (message/suggestion texts
and the optional draft_id dropped; only code and level are claim-relevant). -/
structure RiskItem where
  code : String
  level : String
deriving DecidableEq, Repr

/-- A row of `risk_check_results`. -/
structure RiskRow where
  status : String
  items : List RiskItem
  inputDraftIds : List String
deriving DecidableEq, Repr

/-- The latest `bars_daily` row of one instrument, as consumed by
`_latest_close` (the close) and `check_price_limit` (close and pre_close).
The `SELECT close ... ORDER BY trade_date DESC LIMIT 1` query is modelled as an
association-list lookup on this summary. -/
structure BarLatest where
  close : Rat
  preClose : Option Rat
deriving DecidableEq, Repr

/-- The observable database state (one portfolio). -/
structure Store where
  cash : Rat
  positions : List (Key × PosRow)
  trades : List Trade
  orders : List SimOrder
  audits : List Audit
  bars : List (Key × BarLatest)
  riskchecks : List (String × RiskRow)
deriving DecidableEq, Repr

/-- Association-list lookup (first match); the tables involved are keyed by a
primary key, so at most one row matches. -/
def alookup {α β : Type} [DecidableEq α] : List (α × β) → α → Option β
  | [], _ => none
  | (k, v) :: rest, key => if k = key then some v else alookup rest key

/-- Association-list upsert: replace the first row with the key, else append
(the `ON CONFLICT ... DO UPDATE` upsert). -/
def aset {α β : Type} [DecidableEq α] : List (α × β) → α → β → List (α × β)
  | [], key, v => [(key, v)]
  | (k, w) :: rest, key, v =>
      if k = key then (key, v) :: rest else (k, w) :: aset rest key v

/-- Association-list delete of the row with the key (`DELETE ... WHERE key=?`;
the key is primary, so deleting the first match deletes all matches). -/
def adel {α β : Type} [DecidableEq α] : List (α × β) → α → List (α × β)
  | [], _ => []
  | (k, w) :: rest, key => if k = key then rest else (k, w) :: adel rest key

/-- `PortfolioRepo._latest_close` / `SimService._latest_close`: latest RAW
close for an instrument, `none` when no bar exists. -/
def latestClose (s : Store) (k : Key) : Option Rat :=
  (alookup s.bars k).map BarLatest.close

/-- `PortfolioRepo.get_position` defaulting, as in `_apply_position`:
`old_qty = pos[0] if pos else 0`, `old_avg = pos[1] if pos else 0.0`. -/
def getPosition (s : Store) (k : Key) : Int × Rat :=
  match alookup s.positions k with
  | some p => (p.qty, p.avgCost)
  | none => (0, 0)

/-- `PortfolioRepo.upsert_position` (the row write; its transaction commit is
done by the caller's `Tx.commit`). -/
def upsertPosition (s : Store) (k : Key) (qty : Int) (avgCost : Rat) : Store :=
  { s with positions := aset s.positions k ⟨qty, avgCost⟩ }

/-- `PortfolioRepo.delete_position`. -/
def deletePosition (s : Store) (k : Key) : Store :=
  { s with positions := adel s.positions k }

/-- Transaction state over the single sqlite connection: `working` is the
uncommitted database state, `snaps` the committed snapshots, most recent
first.  See the module docstring for the commit/rollback modelling. -/
structure Tx where
  snaps : List Store
  working : Store
deriving DecidableEq, Repr

/-- Normal exit of a `with self._conn:` block: commit the working state. -/
def Tx.commit (t : Tx) : Tx := ⟨t.working :: t.snaps, t.working⟩

/-- The currently committed (durable) state. -/
def Tx.committed (t : Tx) : Store := t.snaps.headD t.working

/-- A fresh transaction context over a committed store. -/
def Tx.start (s : Store) : Tx := ⟨[s], s⟩

/-- Simulation tunables (`SIM_FEE_RATE`, `SIM_SLIPPAGE_RATE`). -/
structure SimCfg where
  feeRate : Rat
  slipRate : Rat
deriving DecidableEq, Repr

/-- The documented defaults: fee 0.0003, slippage 0.0005. -/
def defaultSimCfg : SimCfg := ⟨3/10000, 5/10000⟩

/-- An order-draft row as consumed by `SimService.confirm` / the risk engine
(`draft_id, symbol, exchange, side, qty, price`). -/
structure Leg where
  draftId : String
  symbol : String
  exchange : String
  side : String
  qty : Int
  price : Option Rat
deriving DecidableEq, Repr

/-- `SimService._apply_position`, including the inner `with self._conn:`
commit performed by `upsert_position` / `delete_position` on the shared
connection — the `Tx.commit` here is that inner commit. -/
def applyPosition (t : Tx) (k : Key) (side : String) (qty : Int)
    (fillPrice fee slippage : Rat) : Except String Tx :=
  let old := getPosition t.working k
  let oldQty := old.1
  let oldAvg := old.2
  if side = "BUY" then
    let newQty := oldQty + qty
    let newCostTotal := oldAvg * (oldQty : Rat) + fillPrice * (qty : Rat) + fee + slippage
    let newAvg := if newQty = 0 then 0 else newCostTotal / (newQty : Rat)
    Except.ok (Tx.commit { t with working := upsertPosition t.working k newQty newAvg })
  else
    let newQty := oldQty - qty
    if newQty < 0 then Except.error "position would go negative"
    else if newQty = 0 then
      Except.ok (Tx.commit { t with working := deletePosition t.working k })
    else
      Except.ok (Tx.commit { t with working := upsertPosition t.working k newQty oldAvg })

/-- One iteration of the per-draft loop in `SimService.confirm`: price lookup,
fee/slippage, cash update, `sim_trades` insert (uncommitted), then
`_apply_position` (which commits). -/
def stepLeg (cfg : SimCfg) (t : Tx) (cash : Rat) (l : Leg) :
    Except String (Tx × Rat × Trade) :=
  match latestClose t.working (l.symbol, l.exchange) with
  | none => Except.error "no latest price"
  | some basePrice =>
    let fillPrice := l.price.getD basePrice
    let slippage := basePrice * cfg.slipRate * (l.qty : Rat)
    let fee := fillPrice * (l.qty : Rat) * cfg.feeRate
    let cash2 :=
      if l.side = "BUY" then cash - (fillPrice * (l.qty : Rat) + fee + slippage)
      else cash + (fillPrice * (l.qty : Rat) - fee - slippage)
    let tr : Trade := ⟨l.symbol, l.exchange, l.side, fillPrice, l.qty, fee, slippage⟩
    let t1 : Tx := { t with working := { t.working with trades := t.working.trades ++ [tr] } }
    match applyPosition t1 (l.symbol, l.exchange) l.side l.qty fillPrice fee slippage with
    | Except.error e => Except.error e
    | Except.ok t2 => Except.ok (t2, cash2, tr)

/-- The accumulators threaded through the draft loop of `confirm`
(`cash, total_fee, total_slip, filled_qty_total, fill_value_total, trades`). -/
structure ConfAcc where
  cash : Rat
  totalFee : Rat
  totalSlip : Rat
  filledQty : Int
  fillValue : Rat
  trades : List Trade
deriving DecidableEq, Repr

/-- The draft loop of `confirm`.  On an exception the transaction context is
returned as-is: the uncommitted tail is rolled back by reading
`Tx.committed`. -/
def runLegs (cfg : SimCfg) : List Leg → Tx → ConfAcc → Tx × Except String ConfAcc
  | [], t, a => (t, Except.ok a)
  | l :: rest, t, a =>
    match stepLeg cfg t a.cash l with
    | Except.error e => (t, Except.error e)
    | Except.ok (t2, cash2, tr) =>
        runLegs cfg rest t2
          { cash := cash2
            totalFee := a.totalFee + tr.fee
            totalSlip := a.totalSlip + tr.slippage
            filledQty := a.filledQty + tr.fillQty
            fillValue := a.fillValue + tr.fillPrice * (tr.fillQty : Rat)
            trades := a.trades ++ [tr] }

/-- The dict returned by `SimService.confirm` (order_id dropped). -/
structure ConfirmResult where
  status : String
  filledQty : Int
  avgFillPrice : Option Rat
  feeTotal : Rat
  slippageTotal : Rat
  trades : List Trade
  cash : Rat
deriving DecidableEq, Repr

/-- `SimService.confirm`, returning the full transaction context (for
observing committed snapshots) together with the result or error. -/
def confirmTx (cfg : SimCfg) (s : Store) (legs : List Leg) (riskcheckId : String) :
    Tx × Except String ConfirmResult :=
  if legs.isEmpty then (Tx.start s, Except.error "draft_rows empty")
  else
    match alookup s.riskchecks riskcheckId with
    | none => (Tx.start s, Except.error "riskcheck_id not found")
    | some row =>
      if row.status = "FAIL" then (Tx.start s, Except.error "risk check failed")
      else
        match runLegs cfg legs (Tx.start s) ⟨s.cash, 0, 0, 0, 0, []⟩ with
        | (t, Except.error e) => (t, Except.error e)
        | (t, Except.ok a) =>
          let avgFill := if a.filledQty = 0 then none else some (a.fillValue / (a.filledQty : Rat))
          let ord : SimOrder := ⟨"FILLED", legs.map Leg.draftId, a.filledQty, avgFill, a.totalFee, a.totalSlip⟩
          let t2 : Tx := { t with working := { t.working with orders := t.working.orders ++ [ord] } }
          let t3 := Tx.commit { t2 with working := { t2.working with cash := a.cash } }
          (t3, Except.ok ⟨"FILLED", a.filledQty, avgFill, a.totalFee, a.totalSlip, a.trades, a.cash⟩)

/-- `SimService.confirm` as seen from outside: the final committed store and
the result or the raised error. -/
def confirm (cfg : SimCfg) (s : Store) (legs : List Leg) (riskcheckId : String) :
    Store × Except String ConfirmResult :=
  let r := confirmTx cfg s legs riskcheckId
  (r.1.committed, r.2)

/-- Whether an Except value is a success. -/
def isOkE {ε α : Type} : Except ε α → Bool
  | Except.ok _ => true
  | Except.error _ => false

/-- The audit row the `/api/v1/sim/confirm` handler writes via
`AuditLogger.log(action="sim.confirm", entity_type="sim_order", ...)`. -/
def simConfirmAudit : Audit := ⟨"sim.confirm", "sim_order"⟩

/-- The `/api/v1/sim/confirm` handler: run `SimService.confirm`; on success,
`AuditLogger.log` appends the audit row in its own `with self._conn:` block,
a separate transaction committed after `confirm` has already committed.
Returns the chronological list of committed store states. -/
def simConfirmTrace (cfg : SimCfg) (s : Store) (legs : List Leg) (riskcheckId : String) :
    List Store × Except String ConfirmResult :=
  let r := confirmTx cfg s legs riskcheckId
  match r.2 with
  | Except.error e => (r.1.snaps.reverse, Except.error e)
  | Except.ok res =>
      let s2 := r.1.working
      let s3 : Store := { s2 with audits := s2.audits ++ [simConfirmAudit] }
      (r.1.snaps.reverse ++ [s3], Except.ok res)

/-- Value of the positions table: Σ qty · avg_cost. -/
def posValue (ps : List (Key × PosRow)) : Rat :=
  (ps.map (fun kp => (kp.2.qty : Rat) * kp.2.avgCost)).sum

/-- Fee plus slippage recorded on a `sim_trades` row. -/
def tradeCharge (tr : Trade) : Rat := tr.fee + tr.slippage

/-- Total of fees and slippage over all recorded trades ("all fees and
slippage charged so far", the quantity the claim sums). -/
def allCharges (ts : List Trade) : Rat := (ts.map tradeCharge).sum

/-- Total of fees and slippage over the SELL-side trades only (a BUY's fee and
slippage are capitalized into the position's avg_cost by `_apply_position`). -/
def sellCharges (ts : List Trade) : Rat :=
  ((ts.filter (fun tr => decide (¬ tr.side = "BUY"))).map tradeCharge).sum

/-- The constant-price assumption of the accounting claim, stated along the
execution of a draft batch: every SELL leg fills exactly at the avg_cost the
position has at the moment the leg executes. -/
def constFillLegs (cfg : SimCfg) : List Leg → Tx → Rat → Bool
  | [], _, _ => true
  | l :: rest, t, cash =>
    match stepLeg cfg t cash l with
    | Except.error _ => true
    | Except.ok (t2, cash2, tr) =>
        (l.side == "BUY" || tr.fillPrice == (getPosition t.working (l.symbol, l.exchange)).2)
          && constFillLegs cfg rest t2 cash2

/-- One `sim.confirm` invocation: the draft batch and the riskcheck id. -/
structure ConfirmCall where
  legs : List Leg
  riskcheckId : String
deriving DecidableEq, Repr

/-- Run a sequence of `sim.confirm` calls; the Bool records whether every call
succeeded. -/
def runConfirms (cfg : SimCfg) : Store → List ConfirmCall → Store × Bool
  | s, [] => (s, true)
  | s, c :: rest =>
    match confirm cfg s c.legs c.riskcheckId with
    | (s2, Except.ok _) => runConfirms cfg s2 rest
    | (s2, Except.error _) => (s2, false)

/-- The constant-price assumption along a sequence of confirm calls. -/
def constFillCalls (cfg : SimCfg) : Store → List ConfirmCall → Bool
  | _, [] => true
  | s, c :: rest =>
      constFillLegs cfg c.legs (Tx.start s) s.cash
        && constFillCalls cfg (confirm cfg s c.legs c.riskcheckId).1 rest

/-- All drafts in a batch carry a non-negative quantity. -/
def legsQtyNonneg (legs : List Leg) : Bool := legs.all (fun l => decide (0 ≤ l.qty))

/-- All drafts of all calls carry a non-negative quantity. -/
def callsQtyNonneg (cs : List ConfirmCall) : Bool := cs.all (fun c => legsQtyNonneg c.legs)

/-- Every position row has non-negative quantity. -/
def posNonnegL (ps : List (Key × PosRow)) : Prop := ∀ kp ∈ ps, 0 ≤ kp.2.qty

/-- The running accounting quantity: working cash plus position value plus
SELL-side charges recorded so far. -/
def ledgerQ (cash : Rat) (s : Store) : Rat :=
  cash + posValue s.positions + sellCharges s.trades

/-! Concrete stores used as inputs of the closed theorems. -/

/-- A portfolio with cash 10000, no positions, a latest close of 10 for
600519.SSE and a PASS risk check recorded for draft d1. -/
def buyStore : Store :=
  ⟨10000, [], [], [], [], [(("600519", "SSE"), ⟨10, none⟩)], [("rc", ⟨"PASS", [], ["d1"]⟩)]⟩

/-- A market BUY draft of 100 shares of 600519.SSE. -/
def buyLeg : Leg := ⟨"d1", "600519", "SSE", "BUY", 100, none⟩

/-- Same as `buyStore` but with only 100 in cash. -/
def lowCashStore : Store :=
  ⟨100, [], [], [], [], [(("600519", "SSE"), ⟨10, none⟩)], [("rc", ⟨"PASS", [], ["d1"]⟩)]⟩

/-- Same as `buyStore` but with the recorded risk check's input_draft_ids
being an arbitrary list. -/
def storeWithRcInputs (ids : List String) : Store :=
  ⟨10000, [], [], [], [], [(("600519", "SSE"), ⟨10, none⟩)], [("rc", ⟨"PASS", [], ids⟩)]⟩

/-- Cash 500000, one position of 100 shares of 000001.SZSE at avg cost 8,
latest closes for both instruments, and a PASS risk check. -/
def atomicStore : Store :=
  ⟨500000, [(("000001", "SZSE"), ⟨100, 8⟩)], [], [], [],
    [(("600519", "SSE"), ⟨1000, none⟩), (("000001", "SZSE"), ⟨10, none⟩)],
    [("rc", ⟨"PASS", [], ["d1", "d2"]⟩)]⟩

/-- A two-leg batch whose second leg SELLs more than the held quantity. -/
def atomicLegs : List Leg :=
  [⟨"d1", "600519", "SSE", "BUY", 100, none⟩, ⟨"d2", "000001", "SZSE", "SELL", 200, none⟩]

/-- C1 counterexample: from initial cash 10000 and no positions, one
successful `sim.confirm` of a single BUY leaves
`cash + Σ(qty · avg_cost) + Σ(all fees and slippage charged so far)` strictly
different from the initial cash: the BUY's fee and slippage are capitalized
into avg_cost and counted again in the fee sum. -/
theorem claim1_counterexample :
    isOkE (confirm defaultSimCfg buyStore [buyLeg] "rc").2 = true ∧
    buyStore.positions = [] ∧
    ¬ ((confirm defaultSimCfg buyStore [buyLeg] "rc").1.cash
        + posValue (confirm defaultSimCfg buyStore [buyLeg] "rc").1.positions
        + allCharges (confirm defaultSimCfg buyStore [buyLeg] "rc").1.trades
        = buyStore.cash) := by
  refine ⟨by decide, by decide, ?_⟩
  norm_num [confirm, confirmTx, runLegs, stepLeg, applyPosition, latestClose, getPosition,
    alookup, aset, adel, upsertPosition, deletePosition, Tx.commit, Tx.committed, Tx.start,
    defaultSimCfg, buyStore, buyLeg, posValue, allCharges, tradeCharge,
    show ("PASS" : String) ≠ "FAIL" from by decide]

/-- C3: `sim.confirm` is not atomic across the batch.  On a two-leg batch
whose second leg is a SELL exceeding the position, the call raises
"position would go negative", yet the first leg's `sim_trades` row and its
position update are already durably committed (the nested
`with self._conn:` blocks of `upsert_position` commit mid-batch), while no
`sim_orders` row exists and cash is unchanged. -/
theorem claim3_nonatomicity :
    isOkE (confirm defaultSimCfg atomicStore atomicLegs "rc").2 = false ∧
    (confirm defaultSimCfg atomicStore atomicLegs "rc").1.trades ≠ atomicStore.trades ∧
    ¬ alookup (confirm defaultSimCfg atomicStore atomicLegs "rc").1.positions ("600519", "SSE")
        = none ∧
    (confirm defaultSimCfg atomicStore atomicLegs "rc").1.orders = atomicStore.orders ∧
    (confirm defaultSimCfg atomicStore atomicLegs "rc").1.cash = atomicStore.cash := by
  decide

/-- C9: `sim.confirm` only checks that the riskcheck exists with a non-FAIL
status; its result does not depend on the riskcheck's recorded
input_draft_ids at all, and a batch whose draft ids are disjoint from the
recorded ones is filled. -/
theorem claim9_riskcheck_drafts_not_compared :
    (∀ ids : List String,
      (confirm defaultSimCfg (storeWithRcInputs ids) [buyLeg] "rc").2
        = (confirm defaultSimCfg (storeWithRcInputs ["d1"]) [buyLeg] "rc").2) ∧
    (alookup (storeWithRcInputs ["dX", "dY"]).riskchecks "rc").map RiskRow.inputDraftIds
        = some ["dX", "dY"] ∧
    ([buyLeg].map Leg.draftId).all
      (fun d => !((["dX", "dY"] : List String).contains d)) = true ∧
    isOkE (confirm defaultSimCfg (storeWithRcInputs ["dX", "dY"]) [buyLeg] "rc").2 = true := by
  refine ⟨fun ids => rfl, by decide, by decide, by decide⟩

/-- C10: `sim.confirm` performs no cash-sufficiency check: with cash 100, a
BUY costing 1000.8 (incl. fee and slippage) fills successfully and the
committed cash balance is negative. -/
theorem claim10_no_cash_check :
    0 ≤ lowCashStore.cash ∧
    isOkE (confirm defaultSimCfg lowCashStore [buyLeg] "rc").2 = true ∧
    (confirm defaultSimCfg lowCashStore [buyLeg] "rc").1.cash < 0 := by
  refine ⟨by decide, by decide, ?_⟩
  norm_num [confirm, confirmTx, runLegs, stepLeg, applyPosition, latestClose, getPosition,
    alookup, aset, adel, upsertPosition, deletePosition, Tx.commit, Tx.committed, Tx.start,
    defaultSimCfg, lowCashStore, buyLeg,
    show ("PASS" : String) ≠ "FAIL" from by decide]

/-! Lemmas about the association-list primitives and the accounting value. -/

theorem alookup_mem {α β : Type} [DecidableEq α] {ps : List (α × β)} {k : α} {v : β}
    (h : alookup ps k = some v) : (k, v) ∈ ps := by
  induction ps with
  | nil => simp [alookup] at h
  | cons hd tl ih =>
    obtain ⟨k1, v1⟩ := hd
    by_cases hk : k1 = k
    · subst hk
      rw [alookup, if_pos rfl] at h
      injection h with h
      subst h
      exact List.mem_cons_self _ _
    · rw [alookup, if_neg hk] at h
      exact List.mem_cons_of_mem _ (ih h)

theorem mem_aset {α β : Type} [DecidableEq α] {ps : List (α × β)} {k : α} {v : β} {x : α × β}
    (h : x ∈ aset ps k v) : x = (k, v) ∨ x ∈ ps := by
  induction ps with
  | nil => simpa [aset] using h
  | cons hd tl ih =>
    obtain ⟨k1, v1⟩ := hd
    by_cases hk : k1 = k
    · subst hk
      rw [aset, if_pos rfl] at h
      rcases List.mem_cons.mp h with h | h
      · exact Or.inl h
      · exact Or.inr (List.mem_cons_of_mem _ h)
    · rw [aset, if_neg hk] at h
      rcases List.mem_cons.mp h with h | h
      · exact Or.inr (h ▸ List.mem_cons_self _ _)
      · rcases ih h with h2 | h2
        · exact Or.inl h2
        · exact Or.inr (List.mem_cons_of_mem _ h2)

theorem mem_adel {α β : Type} [DecidableEq α] {ps : List (α × β)} {k : α} {x : α × β}
    (h : x ∈ adel ps k) : x ∈ ps := by
  induction ps with
  | nil => simp [adel] at h
  | cons hd tl ih =>
    obtain ⟨k1, v1⟩ := hd
    by_cases hk : k1 = k
    · subst hk
      rw [adel, if_pos rfl] at h
      exact List.mem_cons_of_mem _ h
    · rw [adel, if_neg hk] at h
      rcases List.mem_cons.mp h with h | h
      · exact h ▸ List.mem_cons_self _ _
      · exact List.mem_cons_of_mem _ (ih h)

/-- Value `qty · avg_cost` of the row stored under a key, 0 when absent. -/
def lookVal (ps : List (Key × PosRow)) (k : Key) : Rat :=
  match alookup ps k with
  | some p => (p.qty : Rat) * p.avgCost
  | none => 0

theorem posValue_cons (kp : Key × PosRow) (tl : List (Key × PosRow)) :
    posValue (kp :: tl) = (kp.2.qty : Rat) * kp.2.avgCost + posValue tl := by
  simp [posValue]

theorem lookVal_cons (k1 : Key) (v1 : PosRow) (tl : List (Key × PosRow)) (k : Key) :
    lookVal ((k1, v1) :: tl) k
      = if k1 = k then (v1.qty : Rat) * v1.avgCost else lookVal tl k := by
  by_cases h : k1 = k <;> simp [lookVal, alookup, h]

theorem posValue_aset (ps : List (Key × PosRow)) (k : Key) (p : PosRow) :
    posValue (aset ps k p) = posValue ps - lookVal ps k + (p.qty : Rat) * p.avgCost := by
  induction ps with
  | nil => simp [aset, posValue, lookVal, alookup]
  | cons hd tl ih =>
    obtain ⟨k1, v1⟩ := hd
    by_cases h : k1 = k
    · subst h
      rw [aset, if_pos rfl, posValue_cons, posValue_cons, lookVal_cons, if_pos rfl]
      ring
    · rw [aset, if_neg h, posValue_cons, posValue_cons, lookVal_cons, if_neg h, ih]
      ring

theorem posValue_adel (ps : List (Key × PosRow)) (k : Key) :
    posValue (adel ps k) = posValue ps - lookVal ps k := by
  induction ps with
  | nil => simp [adel, posValue, lookVal, alookup]
  | cons hd tl ih =>
    obtain ⟨k1, v1⟩ := hd
    by_cases h : k1 = k
    · subst h
      rw [adel, if_pos rfl, posValue_cons, lookVal_cons, if_pos rfl]
      ring
    · rw [adel, if_neg h, posValue_cons, posValue_cons, lookVal_cons, if_neg h, ih]
      ring

theorem lookVal_getPosition (s : Store) (k : Key) :
    lookVal s.positions k = ((getPosition s k).1 : Rat) * (getPosition s k).2 := by
  unfold lookVal getPosition
  cases alookup s.positions k <;> simp

theorem getPosition_qty_nonneg {s : Store} (h : posNonnegL s.positions) (k : Key) :
    0 ≤ (getPosition s k).1 := by
  unfold getPosition
  cases hlk : alookup s.positions k with
  | none => simp
  | some p => exact h _ (alookup_mem hlk)

theorem sellCharges_append (ts : List Trade) (tr : Trade) :
    sellCharges (ts ++ [tr])
      = sellCharges ts + if tr.side = "BUY" then 0 else tradeCharge tr := by
  by_cases h : tr.side = "BUY" <;> simp [sellCharges, List.filter_append, h]

theorem getPosition_update_trades (s : Store) (ts : List Trade) (k : Key) :
    getPosition { s with trades := ts } k = getPosition s k := rfl

/-- One successful draft leg preserves the accounting quantity
`cash + Σ qty·avg_cost + Σ SELL-side (fee+slippage)` and keeps every position
quantity non-negative, provided the leg's qty is non-negative and — for a
SELL — the leg fills at the position's current avg_cost. -/
theorem stepLeg_ledger {cfg : SimCfg} {t : Tx} {cash : Rat} {l : Leg} {t2 : Tx}
    {cash2 : Rat} {tr : Trade}
    (hstep : stepLeg cfg t cash l = Except.ok (t2, cash2, tr))
    (hq : 0 ≤ l.qty)
    (hpn : posNonnegL t.working.positions)
    (hfill : ¬ l.side = "BUY" →
      tr.fillPrice = (getPosition t.working (l.symbol, l.exchange)).2) :
    ledgerQ cash2 t2.working = ledgerQ cash t.working
      ∧ posNonnegL t2.working.positions := by
  have hpq : 0 ≤ (getPosition t.working (l.symbol, l.exchange)).1 :=
    getPosition_qty_nonneg hpn _
  cases hlc : latestClose t.working (l.symbol, l.exchange) with
  | none => simp [stepLeg, hlc] at hstep
  | some basePrice =>
    simp only [stepLeg, hlc] at hstep
    split at hstep
    · exact absurd hstep (by simp)
    · rename_i t2' hap
      simp only [Except.ok.injEq, Prod.mk.injEq] at hstep
      obtain ⟨ht2, hcash2, htr⟩ := hstep
      subst ht2
      subst hcash2
      subst htr
      by_cases hside : l.side = "BUY"
      · simp only [applyPosition, if_pos hside, getPosition_update_trades,
          Except.ok.injEq] at hap
        subst hap
        by_cases hnq : (getPosition t.working (l.symbol, l.exchange)).1 + l.qty = 0
        · have hq0 : l.qty = 0 := by omega
          have hp0 : (getPosition t.working (l.symbol, l.exchange)).1 = 0 := by omega
          constructor
          · simp only [ledgerQ, Tx.commit, upsertPosition, getPosition_update_trades,
              posValue_aset, sellCharges_append, lookVal_getPosition, hside, hq0, hp0]
            push_cast
            simp
          · intro kp hkp
            rcases mem_aset hkp with h | h
            · subst h
              simp [hq0, hp0]
            · exact hpn _ h
        · have hcast : (((getPosition t.working (l.symbol, l.exchange)).1 : Rat) + (l.qty : Rat)) ≠ 0 := by
            have h2 : (((getPosition t.working (l.symbol, l.exchange)).1 + l.qty : Int) : Rat) ≠ 0 :=
              Int.cast_ne_zero.mpr hnq
            push_cast at h2
            exact h2
          constructor
          · simp only [ledgerQ, Tx.commit, upsertPosition, getPosition_update_trades,
              posValue_aset, sellCharges_append, lookVal_getPosition, hside, if_neg hnq]
            push_cast
            field_simp
            ring
          · intro kp hkp
            rcases mem_aset hkp with h | h
            · subst h
              simpa using add_nonneg hpq hq
            · exact hpn _ h
      · have hfp := hfill hside
        dsimp only at hfp
        simp only [applyPosition, if_neg hside, getPosition_update_trades] at hap
        by_cases hneg : (getPosition t.working (l.symbol, l.exchange)).1 - l.qty < 0
        · rw [if_pos hneg] at hap
          exact absurd hap (by simp)
        rw [if_neg hneg] at hap
        by_cases hzero : (getPosition t.working (l.symbol, l.exchange)).1 - l.qty = 0
        · rw [if_pos hzero] at hap
          simp only [Except.ok.injEq] at hap
          subst hap
          have hqty : (getPosition t.working (l.symbol, l.exchange)).1 = l.qty := by omega
          constructor
          · simp only [ledgerQ, Tx.commit, deletePosition, getPosition_update_trades,
              posValue_adel, sellCharges_append, lookVal_getPosition, hside,
              tradeCharge, hfp, hqty]
            push_cast
            ring
          · intro kp hkp
            exact hpn _ (mem_adel hkp)
        · rw [if_neg hzero] at hap
          simp only [Except.ok.injEq] at hap
          subst hap
          constructor
          · simp only [ledgerQ, Tx.commit, upsertPosition, getPosition_update_trades,
              posValue_aset, sellCharges_append, lookVal_getPosition, hside,
              tradeCharge, hfp]
            push_cast
            ring
          · intro kp hkp
            rcases mem_aset hkp with h | h
            · subst h
              simp only
              omega
            · exact hpn _ h

theorem Tx.committed_commit (t : Tx) : (Tx.commit t).committed = t.working := rfl

/-- The draft loop preserves the accounting quantity and position
non-negativity when all legs are successful, quantities are non-negative and
SELLs fill at the position's current avg_cost. -/
theorem runLegs_ledger (cfg : SimCfg) (legs : List Leg) :
    ∀ (t : Tx) (a : ConfAcc) (t2 : Tx) (a2 : ConfAcc),
    runLegs cfg legs t a = (t2, Except.ok a2) →
    legsQtyNonneg legs = true →
    constFillLegs cfg legs t a.cash = true →
    posNonnegL t.working.positions →
    ledgerQ a2.cash t2.working = ledgerQ a.cash t.working
      ∧ posNonnegL t2.working.positions := by
  induction legs with
  | nil =>
    intro t a t2 a2 h _ _ hpn
    simp only [runLegs, Prod.mk.injEq, Except.ok.injEq] at h
    obtain ⟨h1, h2⟩ := h
    subst h1
    subst h2
    exact ⟨rfl, hpn⟩
  | cons l rest ih =>
    intro t a t2 a2 h hq hcf hpn
    rw [runLegs] at h
    cases hstep : stepLeg cfg t a.cash l with
    | error e => rw [hstep] at h; simp at h
    | ok res =>
      obtain ⟨t1, cash1, tr⟩ := res
      rw [hstep] at h
      simp only [legsQtyNonneg, List.all_cons, Bool.and_eq_true, decide_eq_true_eq] at hq
      rw [constFillLegs, hstep] at hcf
      simp only [Bool.and_eq_true, Bool.or_eq_true, beq_iff_eq] at hcf
      have hfill : ¬ l.side = "BUY" →
          tr.fillPrice = (getPosition t.working (l.symbol, l.exchange)).2 := by
        intro hs
        rcases hcf.1 with h1 | h1
        · exact absurd h1 hs
        · exact h1
      have hone := stepLeg_ledger hstep hq.1 hpn hfill
      have hrest := ih t1 _ t2 a2 h (by simpa [legsQtyNonneg] using hq.2) hcf.2 hone.2
      exact ⟨hrest.1.trans hone.1, hrest.2⟩

/-- One successful `sim.confirm` preserves the accounting quantity and
position non-negativity (hypotheses as in `runLegs_ledger`). -/
theorem confirm_ledger {cfg : SimCfg} {s : Store} {legs : List Leg} {rid : String}
    {s2 : Store} {res : ConfirmResult}
    (h : confirm cfg s legs rid = (s2, Except.ok res))
    (hq : legsQtyNonneg legs = true)
    (hcf : constFillLegs cfg legs (Tx.start s) s.cash = true)
    (hpn : posNonnegL s.positions) :
    s2.cash + posValue s2.positions + sellCharges s2.trades
      = s.cash + posValue s.positions + sellCharges s.trades
      ∧ posNonnegL s2.positions := by
  by_cases hemp : legs.isEmpty
  · simp [confirm, confirmTx, hemp] at h
  · cases hlk : alookup s.riskchecks rid with
    | none => simp [confirm, confirmTx, hemp, hlk] at h
    | some row =>
      by_cases hfail : row.status = "FAIL"
      · simp [confirm, confirmTx, hemp, hlk, hfail] at h
      · cases hrun : runLegs cfg legs (Tx.start s) ⟨s.cash, 0, 0, 0, 0, []⟩ with
        | mk t e =>
          cases e with
          | error err => simp [confirm, confirmTx, hemp, hlk, hfail, hrun] at h
          | ok a =>
            have hled := runLegs_ledger cfg legs (Tx.start s) ⟨s.cash, 0, 0, 0, 0, []⟩ t a
              hrun hq hcf hpn
            simp only [confirm, confirmTx, hemp, hlk, hfail, hrun, Bool.false_eq_true,
              if_false, if_neg, Tx.committed_commit, Prod.mk.injEq, Except.ok.injEq] at h
            obtain ⟨h1, _⟩ := h
            subst h1
            simpa only [ledgerQ, Tx.start] using hled

/-- A sequence of successful confirms preserves the accounting quantity. -/
theorem runConfirms_ledger (cfg : SimCfg) (calls : List ConfirmCall) :
    ∀ (s : Store),
    (runConfirms cfg s calls).2 = true →
    callsQtyNonneg calls = true →
    constFillCalls cfg s calls = true →
    posNonnegL s.positions →
    (runConfirms cfg s calls).1.cash
        + posValue (runConfirms cfg s calls).1.positions
        + sellCharges (runConfirms cfg s calls).1.trades
      = s.cash + posValue s.positions + sellCharges s.trades
      ∧ posNonnegL (runConfirms cfg s calls).1.positions := by
  induction calls with
  | nil => intro s _ _ _ hpn; exact ⟨rfl, hpn⟩
  | cons c rest ih =>
    intro s hok hq hcf hpn
    rw [runConfirms] at hok ⊢
    simp only [callsQtyNonneg, List.all_cons, Bool.and_eq_true] at hq
    rw [constFillCalls] at hcf
    simp only [Bool.and_eq_true] at hcf
    cases hc : confirm cfg s c.legs c.riskcheckId with
    | mk s2 e =>
      cases e with
      | error err => rw [hc] at hok; simp at hok
      | ok r =>
        rw [hc] at hok
        dsimp only at hok ⊢
        have hstep := confirm_ledger hc hq.1 hcf.1 hpn
        have hcf2 : constFillCalls cfg s2 rest = true := by
          have h2 := hcf.2
          rw [hc] at h2
          exact h2
        have hrest := ih s2 hok (by simpa [callsQtyNonneg] using hq.2) hcf2 hstep.2
        refine ⟨?_, hrest.2⟩
        rw [hrest.1, hstep.1]

/-- C1 (amended): starting from cash C0, no positions and no trades, after any
sequence of successful `sim.confirm` executions with non-negative quantities
in which every SELL fills at the position's current avg_cost,
`cash + Σ(qty · avg_cost) + Σ over SELL trades of (fee + slippage)` equals C0.
BUY-side fees and slippage do not appear as a separate term: `_apply_position`
capitalizes them into the position's avg_cost. -/
theorem claim1_accounting_identity_amended (cfg : SimCfg) (C0 : Rat) (s0 : Store)
    (calls : List ConfirmCall)
    (hcash : s0.cash = C0) (hpos : s0.positions = []) (htr : s0.trades = [])
    (hq : callsQtyNonneg calls = true)
    (hcf : constFillCalls cfg s0 calls = true)
    (hok : (runConfirms cfg s0 calls).2 = true) :
    (runConfirms cfg s0 calls).1.cash
      + posValue (runConfirms cfg s0 calls).1.positions
      + sellCharges (runConfirms cfg s0 calls).1.trades = C0 := by
  have hpn : posNonnegL s0.positions := by
    rw [hpos]
    intro kp hkp
    cases hkp
  have hled := runConfirms_ledger cfg calls s0 hok hq hcf hpn
  rw [hled.1, hpos, htr, hcash]
  simp [posValue, sellCharges]

/-- A SELL draft of the full position with limit price equal to the avg cost
10.008 produced by the preceding BUY of `buyLeg`. -/
def avgSellLeg : Leg := ⟨"d2", "600519", "SSE", "SELL", 100, some (1251/125)⟩

/-- Witness for C1 (amended): a concrete confirm of a BUY followed by a SELL
at avg cost, starting from cash 10000; the identity evaluates to 10000. -/
theorem claim1_amended_witness :
    callsQtyNonneg [⟨[buyLeg, avgSellLeg], "rc"⟩] = true ∧
    constFillCalls defaultSimCfg buyStore [⟨[buyLeg, avgSellLeg], "rc"⟩] = true ∧
    (runConfirms defaultSimCfg buyStore [⟨[buyLeg, avgSellLeg], "rc"⟩]).2 = true ∧
    (runConfirms defaultSimCfg buyStore [⟨[buyLeg, avgSellLeg], "rc"⟩]).1.cash
      + posValue (runConfirms defaultSimCfg buyStore [⟨[buyLeg, avgSellLeg], "rc"⟩]).1.positions
      + sellCharges (runConfirms defaultSimCfg buyStore [⟨[buyLeg, avgSellLeg], "rc"⟩]).1.trades
      = 10000 := by
  have h1 : callsQtyNonneg [⟨[buyLeg, avgSellLeg], "rc"⟩] = true := by decide
  have h2 : constFillCalls defaultSimCfg buyStore [⟨[buyLeg, avgSellLeg], "rc"⟩] = true := by
    norm_num [constFillCalls, constFillLegs, confirm, confirmTx, runLegs, stepLeg,
      applyPosition, latestClose, getPosition, alookup, aset, adel, upsertPosition,
      deletePosition, Tx.commit, Tx.committed, Tx.start, defaultSimCfg, buyStore, buyLeg,
      avgSellLeg, beq_iff_eq,
      show ("PASS" : String) ≠ "FAIL" from by decide,
      show ("SELL" : String) ≠ "BUY" from by decide]
  have h3 : (runConfirms defaultSimCfg buyStore [⟨[buyLeg, avgSellLeg], "rc"⟩]).2 = true := by
    norm_num [runConfirms, confirm, confirmTx, runLegs, stepLeg, applyPosition, latestClose,
      getPosition, alookup, aset, adel, upsertPosition, deletePosition, Tx.commit,
      Tx.committed, Tx.start, defaultSimCfg, buyStore, buyLeg, avgSellLeg,
      show ("PASS" : String) ≠ "FAIL" from by decide,
      show ("SELL" : String) ≠ "BUY" from by decide]
  exact ⟨h1, h2, h3,
    claim1_accounting_identity_amended defaultSimCfg 10000 buyStore _ rfl rfl rfl h1 h2 h3⟩

/-- A successful leg never touches the orders or audit tables and commits
exactly once (the inner commit of `upsert_position` / `delete_position`). -/
theorem stepLeg_frame {cfg : SimCfg} {t : Tx} {cash : Rat} {l : Leg} {t2 : Tx}
    {cash2 : Rat} {tr : Trade}
    (hstep : stepLeg cfg t cash l = Except.ok (t2, cash2, tr)) :
    t2.working.orders = t.working.orders ∧ t2.working.audits = t.working.audits ∧
    t2.snaps = t2.working :: t.snaps := by
  cases hlc : latestClose t.working (l.symbol, l.exchange) with
  | none => simp [stepLeg, hlc] at hstep
  | some basePrice =>
    simp only [stepLeg, hlc] at hstep
    split at hstep
    · exact absurd hstep (by simp)
    · rename_i t2' hap
      simp only [Except.ok.injEq, Prod.mk.injEq] at hstep
      obtain ⟨ht2, hcash2, htr⟩ := hstep
      subst ht2
      by_cases hside : l.side = "BUY"
      · simp only [applyPosition, if_pos hside, getPosition_update_trades,
          Except.ok.injEq] at hap
        subst hap
        exact ⟨rfl, rfl, rfl⟩
      · simp only [applyPosition, if_neg hside, getPosition_update_trades] at hap
        by_cases hneg : (getPosition t.working (l.symbol, l.exchange)).1 - l.qty < 0
        · rw [if_pos hneg] at hap
          exact absurd hap (by simp)
        rw [if_neg hneg] at hap
        by_cases hzero : (getPosition t.working (l.symbol, l.exchange)).1 - l.qty = 0
        · rw [if_pos hzero] at hap
          simp only [Except.ok.injEq] at hap
          subst hap
          exact ⟨rfl, rfl, rfl⟩
        · rw [if_neg hzero] at hap
          simp only [Except.ok.injEq] at hap
          subst hap
          exact ⟨rfl, rfl, rfl⟩

/-- The draft loop never touches orders or audits, and every snapshot it
commits carries the orders and audits the transaction started with. -/
theorem runLegs_frame (cfg : SimCfg) (legs : List Leg) :
    ∀ (t : Tx) (a : ConfAcc) (t2 : Tx) (a2 : ConfAcc),
    runLegs cfg legs t a = (t2, Except.ok a2) →
    t2.working.orders = t.working.orders ∧ t2.working.audits = t.working.audits ∧
    ∀ st ∈ t2.snaps,
      st ∈ t.snaps ∨ (st.orders = t.working.orders ∧ st.audits = t.working.audits) := by
  induction legs with
  | nil =>
    intro t a t2 a2 h
    simp only [runLegs, Prod.mk.injEq, Except.ok.injEq] at h
    obtain ⟨h1, h2⟩ := h
    subst h1
    exact ⟨rfl, rfl, fun st hst => Or.inl hst⟩
  | cons l rest ih =>
    intro t a t2 a2 h
    rw [runLegs] at h
    cases hstep : stepLeg cfg t a.cash l with
    | error e => rw [hstep] at h; simp at h
    | ok res =>
      obtain ⟨t1, cash1, tr⟩ := res
      rw [hstep] at h
      have hf := stepLeg_frame hstep
      have hr := ih t1 _ t2 a2 h
      refine ⟨hr.1.trans hf.1, hr.2.1.trans hf.2.1, ?_⟩
      intro st hst
      rcases hr.2.2 st hst with hmem | hprop
      · rw [hf.2.2] at hmem
        rcases List.mem_cons.mp hmem with he | hmem2
        · subst he
          exact Or.inr ⟨hf.1, hf.2.1⟩
        · exact Or.inl hmem2
      · exact Or.inr ⟨hprop.1.trans hf.1, hprop.2.trans hf.2.1⟩

/-- On success, `SimService.confirm` leaves a committed working state holding
exactly one new `sim_orders` row and untouched audits; every earlier
committed snapshot holds the original orders and audits. -/
theorem confirmTx_ok_spec {cfg : SimCfg} {s : Store} {legs : List Leg} {rid : String}
    {t : Tx} {res : ConfirmResult}
    (h : confirmTx cfg s legs rid = (t, Except.ok res)) :
    (∃ ord, t.working.orders = s.orders ++ [ord]) ∧
    t.working.audits = s.audits ∧
    ∃ rest, t.snaps = t.working :: rest ∧
      ∀ st ∈ rest, st.orders = s.orders ∧ st.audits = s.audits := by
  by_cases hemp : legs.isEmpty
  · simp [confirmTx, hemp] at h
  · cases hlk : alookup s.riskchecks rid with
    | none => simp [confirmTx, hemp, hlk] at h
    | some row =>
      by_cases hfail : row.status = "FAIL"
      · simp [confirmTx, hemp, hlk, hfail] at h
      · cases hrun : runLegs cfg legs (Tx.start s) ⟨s.cash, 0, 0, 0, 0, []⟩ with
        | mk trun e =>
          cases e with
          | error err => simp [confirmTx, hemp, hlk, hfail, hrun] at h
          | ok a =>
            have hf := runLegs_frame cfg legs (Tx.start s) ⟨s.cash, 0, 0, 0, 0, []⟩ trun a hrun
            simp only [confirmTx, hemp, hlk, hfail, hrun, Bool.false_eq_true, if_false,
              if_neg, Prod.mk.injEq, Except.ok.injEq] at h
            obtain ⟨h1, _⟩ := h
            subst h1
            refine ⟨⟨⟨"FILLED", legs.map Leg.draftId, a.filledQty,
              (if a.filledQty = 0 then none else some (a.fillValue / (a.filledQty : Rat))),
              a.totalFee, a.totalSlip⟩, ?_⟩, hf.2.1, trun.snaps, rfl, ?_⟩
            · simp only [Tx.commit]
              rw [hf.1]
              rfl
            intro st hst
            rcases hf.2.2 st hst with hmem | hprop
            · have he : st = s := List.mem_singleton.mp hmem
              subst he
              exact ⟨rfl, rfl⟩
            · exact hprop

/-- C2 (amended): the `sim.confirm` audit entry is appended in a separate
transaction that commits after the operation's own transaction.  On every
successful `/sim/confirm` run: the final committed state holds both the new
order and exactly one new audit row; there is an earlier observable committed
state holding the new order but no new audit row (so "effect without audit"
is observable); and every committed state whose audits differ from the
initial ones already holds the new order (no audit without effect). -/
theorem claim2_audit_separate_transaction (cfg : SimCfg) (s : Store) (legs : List Leg)
    (rid : String) (trace : List Store) (res : ConfirmResult)
    (h : simConfirmTrace cfg s legs rid = (trace, Except.ok res)) :
    (∃ last, trace.getLast? = some last ∧
      last.audits = s.audits ++ [simConfirmAudit] ∧
      ∃ ord, last.orders = s.orders ++ [ord]) ∧
    (∃ st ∈ trace, st.audits = s.audits ∧ ∃ ord, st.orders = s.orders ++ [ord]) ∧
    (∀ st ∈ trace, st.audits ≠ s.audits → ∃ ord, st.orders = s.orders ++ [ord]) := by
  cases hc : confirmTx cfg s legs rid with
  | mk t e =>
    cases e with
    | error err => simp [simConfirmTrace, hc] at h
    | ok r =>
      simp only [simConfirmTrace, hc, Prod.mk.injEq, Except.ok.injEq] at h
      obtain ⟨htr, hres⟩ := h
      subst htr
      obtain ⟨⟨ord, hord⟩, haud, rest, hsnaps, hrest⟩ := confirmTx_ok_spec hc
      refine ⟨⟨{ t.working with audits := t.working.audits ++ [simConfirmAudit] },
        ?_, ?_, ?_⟩, ⟨t.working, ?_, haud, ⟨ord, hord⟩⟩, ?_⟩
      · exact List.getLast?_concat _
      · simp only
        rw [haud]
      · exact ⟨ord, hord⟩
      · refine List.mem_append_left _ ?_
        rw [List.mem_reverse, hsnaps]
        exact List.mem_cons_self _ _
      · intro st hst hne
        rcases List.mem_append.mp hst with hmem | hone
        · rw [List.mem_reverse, hsnaps] at hmem
          rcases List.mem_cons.mp hmem with he | hmem2
          · subst he
            exact ⟨ord, hord⟩
          · exact absurd (hrest st hmem2).2 hne
        · have he : st = _ := List.mem_singleton.mp hone
          subst he
          exact ⟨ord, hord⟩

/-- The result of confirming `buyLeg` against `buyStore`. -/
def buyConfirmRes : ConfirmResult :=
  ⟨"FILLED", 100, some 10, 3/10, 1/2,
    [⟨"600519", "SSE", "BUY", 10, 100, 3/10, 1/2⟩], 44996/5⟩

/-- Witness for C2 (amended) at the concrete `buyStore` run: an observable
committed state holds the new order while audits are unchanged. -/
theorem claim2_amended_witness :
    ∃ st ∈ (simConfirmTrace defaultSimCfg buyStore [buyLeg] "rc").1,
      st.audits = buyStore.audits ∧ ∃ ord, st.orders = buyStore.orders ++ [ord] := by
  have hsnd : (simConfirmTrace defaultSimCfg buyStore [buyLeg] "rc").2
      = Except.ok buyConfirmRes := by
    norm_num [simConfirmTrace, confirmTx, runLegs, stepLeg, applyPosition, latestClose,
      getPosition, alookup, aset, adel, upsertPosition, deletePosition, Tx.commit,
      Tx.committed, Tx.start, defaultSimCfg, buyStore, buyLeg, buyConfirmRes,
      show ("PASS" : String) ≠ "FAIL" from by decide]
  have h : simConfirmTrace defaultSimCfg buyStore [buyLeg] "rc"
      = ((simConfirmTrace defaultSimCfg buyStore [buyLeg] "rc").1, Except.ok buyConfirmRes) := by
    rw [← hsnd]
  exact (claim2_audit_separate_transaction defaultSimCfg buyStore [buyLeg] "rc" _ _ h).2.1

/-- C2 counterexample: on a successful `/sim/confirm` there is an observable
committed store state in which the order's effects are committed but the
audit row is not — the audit entry is written in a separate, later
transaction. -/
theorem claim2_counterexample :
    isOkE (simConfirmTrace defaultSimCfg buyStore [buyLeg] "rc").2 = true ∧
    buyStore.audits = [] ∧
    ∃ st ∈ (simConfirmTrace defaultSimCfg buyStore [buyLeg] "rc").1,
      st.orders ≠ [] ∧ st.audits = [] := by
  decide

/-! The trade-plan version model (`src/workbench/services/plans.py`). -/

/-- A row of `trade_plans` (plan_id, timestamps and json bodies dropped):
the instrument key and the `plan_version` column. -/
structure PlanRow where
  key : Key
  planVersion : Int
deriving DecidableEq, Repr

/-- SQL `MAX(...)` over a list of values, NULL (`none`) on an empty set. -/
def listMax : List Int → Option Int
  | [] => none
  | v :: rest =>
    match listMax rest with
    | none => some v
    | some m => some (max v m)

/-- `PlansRepo._next_version`: `SELECT MAX(plan_version) FROM trade_plans
WHERE symbol=? AND exchange=?`; `cur = int(row) if row not NULL else 0`;
returns `cur + 1`. -/
def nextVersion (rows : List PlanRow) (k : Key) : Int :=
  (listMax ((rows.filter (fun r => decide (r.key = k))).map PlanRow.planVersion)).getD 0 + 1

/-- `PlansRepo.create`: append a row with the next version for the key. -/
def plansCreate (rows : List PlanRow) (k : Key) : List PlanRow :=
  rows ++ [⟨k, nextVersion rows k⟩]

/-- The `trade_plans` table produced by a sequence of creates from empty. -/
def plansCreateAll (ks : List Key) : List PlanRow :=
  ks.foldl plansCreate []

/-- The plan_version values for one instrument, in creation order. -/
def versionsFor (rows : List PlanRow) (k : Key) : List Int :=
  (rows.filter (fun r => decide (r.key = k))).map PlanRow.planVersion

/-- The list `[1, 2, ..., n]` as integers. -/
def rangeInt (n : Nat) : List Int := (List.range' 1 n).map (fun m => (m : Int))

/-- The number of creates for a given key. -/
def countKey (ks : List Key) (k : Key) : Nat :=
  (ks.filter (fun a => decide (a = k))).length

theorem le_listMax {l : List Int} {x : Int} (hx : x ∈ l) :
    ∃ m, listMax l = some m ∧ x ≤ m := by
  induction l with
  | nil => cases hx
  | cons v rest ih =>
    rcases List.mem_cons.mp hx with he | hmem
    · subst he
      cases hrest : listMax rest with
      | none => exact ⟨x, by simp [listMax, hrest], le_refl x⟩
      | some m => exact ⟨max x m, by simp [listMax, hrest], le_max_left x m⟩
    · obtain ⟨m, hm, hle⟩ := ih hmem
      refine ⟨max v m, ?_, hle.trans (le_max_right v m)⟩
      simp [listMax, hm]

theorem listMax_append (l : List Int) (v : Int) :
    listMax (l ++ [v]) = some ((listMax l).elim v (fun m => max m v)) := by
  induction l with
  | nil => simp [listMax]
  | cons a rest ih =>
    simp only [List.cons_append, listMax, List.append_eq]
    rw [ih]
    cases hrest : listMax rest with
    | none => simp [hrest]
    | some m => simp [hrest, max_assoc]

theorem rangeInt_succ (n : Nat) : rangeInt (n + 1) = rangeInt n ++ [((n : Int) + 1)] := by
  unfold rangeInt
  rw [List.range'_concat]
  simp [Nat.add_comm]

theorem listMax_rangeInt (n : Nat) :
    listMax (rangeInt n) = if n = 0 then none else some (n : Int) := by
  induction n with
  | zero => simp [rangeInt, listMax]
  | succ m ih =>
    rw [rangeInt_succ, listMax_append, ih]
    by_cases hm : m = 0
    · subst hm
      simp
    · simp only [if_neg hm, Option.elim, Nat.succ_ne_zero, if_neg]
      rw [max_eq_right (by omega)]
      simp

theorem versionsFor_append (rows : List PlanRow) (r : PlanRow) (k : Key) :
    versionsFor (rows ++ [r]) k
      = versionsFor rows k ++ (if r.key = k then [r.planVersion] else []) := by
  by_cases h : r.key = k <;> simp [versionsFor, List.filter_append, h]

theorem countKey_cons (a : Key) (ks : List Key) (k : Key) :
    countKey (a :: ks) k = (if a = k then 1 else 0) + countKey ks k := by
  by_cases h : a = k
  · simp [countKey, h, Nat.add_comm]
  · simp [countKey, h]

/-- `nextVersion` on a table whose versions for the key are `[1..n]` is
`n + 1`. -/
theorem nextVersion_of_range {rows : List PlanRow} {k : Key} {n : Nat}
    (h : versionsFor rows k = rangeInt n) : nextVersion rows k = (n : Int) + 1 := by
  unfold nextVersion
  have hv : (rows.filter (fun r => decide (r.key = k))).map PlanRow.planVersion
      = rangeInt n := h
  rw [hv, listMax_rangeInt]
  by_cases hn : n = 0
  · subst hn
    simp
  · simp [if_neg hn]

theorem createAll_versions (ks : List Key) :
    ∀ (rows : List PlanRow) (k : Key) (n : Nat),
    versionsFor rows k = rangeInt n →
    versionsFor (List.foldl plansCreate rows ks) k = rangeInt (n + countKey ks k) := by
  induction ks with
  | nil =>
    intro rows k n h
    simpa [countKey] using h
  | cons a ks ih =>
    intro rows k n h
    rw [List.foldl_cons, countKey_cons]
    by_cases ha : a = k
    · subst ha
      have h2 : versionsFor (plansCreate rows a) a = rangeInt (n + 1) := by
        rw [plansCreate, versionsFor_append, if_pos rfl, h, nextVersion_of_range h,
          rangeInt_succ]
      rw [ih (plansCreate rows a) a (n + 1) h2]
      congr 1
      simp
      omega
    · have h2 : versionsFor (plansCreate rows a) k = rangeInt n := by
        rw [plansCreate, versionsFor_append, if_neg ha, List.append_nil, h]
      rw [ih (plansCreate rows a) k n h2]
      congr 1
      simp [ha]

/-- C8: for every (symbol, exchange), plan versions form the strictly
increasing sequence 1, 2, ... in creation order: starting from an empty
table, after any sequence of creates the versions recorded for an instrument
are exactly `[1, ..., count of creates for it]`; moreover on any table state
the next created version is strictly greater than every existing version of
that instrument. -/
theorem claim8_plan_versions_monotonic (ks : List Key) (k : Key) :
    versionsFor (plansCreateAll ks) k = rangeInt (countKey ks k) ∧
    (∀ (rows : List PlanRow) (r : PlanRow), r ∈ rows → r.key = k →
      r.planVersion < nextVersion rows k) := by
  constructor
  · simpa using createAll_versions ks [] k 0 (by simp [versionsFor, rangeInt])
  · intro rows r hr hk
    have hmem : r.planVersion
        ∈ (rows.filter (fun r => decide (r.key = k))).map PlanRow.planVersion :=
      List.mem_map_of_mem _ (List.mem_filter.mpr ⟨hr, by simp [hk]⟩)
    obtain ⟨m, hm, hle⟩ := le_listMax hmem
    unfold nextVersion
    rw [hm]
    simp only [Option.getD]
    omega

/-- Witness for C8 at a concrete creation sequence (two creates for 600519,
one for 000001 in between) and a concrete table. -/
theorem claim8_witness :
    versionsFor (plansCreateAll [("600519", "SSE"), ("000001", "SZSE"), ("600519", "SSE")])
        ("600519", "SSE") = rangeInt 2 ∧
    PlanRow.planVersion ⟨("600519", "SSE"), 2⟩
      < nextVersion [⟨("600519", "SSE"), 1⟩, ⟨("600519", "SSE"), 2⟩] ("600519", "SSE") := by
  have h := claim8_plan_versions_monotonic
    [("600519", "SSE"), ("000001", "SZSE"), ("600519", "SSE")] ("600519", "SSE")
  exact ⟨h.1, h.2 [⟨("600519", "SSE"), 1⟩, ⟨("600519", "SSE"), 2⟩]
    ⟨("600519", "SSE"), 2⟩ (by decide) rfl⟩

/-! The rebalance planner (`src/workbench/services/rebalance.py`). -/

/-- A target entry `{symbol, exchange, weight}`. -/
structure RebTarget where
  symbol : String
  exchange : String
  weight : Rat
deriving DecidableEq, Repr

/-- A suggested order emitted by the planner. -/
structure RebOrder where
  symbol : String
  exchange : String
  side : String
  qty : Int
  price : Rat
  estimatedValue : Rat
deriving DecidableEq, Repr

/-- The planner's result (the `sorted(set(...))` on missing_prices is dropped:
the raw append order is kept). -/
structure RebResult where
  totalEquity : Rat
  cashBefore : Rat
  cashAfterEst : Rat
  orders : List RebOrder
  missing : List Key
deriving DecidableEq, Repr

/-- Python `int(x)` on a float: truncation toward zero. -/
def pyInt (q : Rat) : Int := if 0 ≤ q then ⌊q⌋ else ⌈q⌉

/-- Python `//` on integers: floor division (divisors here are positive lot
sizes, where this agrees with every integer-division convention). -/
def pyFloorDiv (a b : Int) : Int := ⌊(a : Rat) / (b : Rat)⌋

/-- Python `str.zfill(6)`: left-pad with zeros to length 6. -/
def zfill6 (s : String) : String :=
  if 6 ≤ s.length then s else (List.replicate (6 - s.length) '0').asString ++ s

/-- One iteration of the order loop of `RebalanceService.suggest`: the
accumulator carries (orders, cash_after, missing). -/
def rebalanceStep (s : Store) (lotSize : Int) (investable : Rat)
    (acc : List RebOrder × Rat × List Key) (t : RebTarget) :
    List RebOrder × Rat × List Key :=
  match latestClose s (t.symbol, t.exchange) with
  | none => (acc.1, acc.2.1, acc.2.2 ++ [(t.symbol, t.exchange)])
  | some px =>
    let targetValue := investable * t.weight
    let curQty := ((alookup s.positions (t.symbol, t.exchange)).map PosRow.qty).getD 0
    let curValue := (curQty : Rat) * px
    let delta := targetValue - curValue
    if |delta| < px * (lotSize : Rat) then acc
    else if 0 < delta then
      let buyQty := pyFloorDiv (pyInt (delta / px)) lotSize * lotSize
      if buyQty ≤ 0 then acc
      else (acc.1 ++ [⟨t.symbol, t.exchange, "BUY", buyQty, px, (buyQty : Rat) * px⟩],
            acc.2.1 - (buyQty : Rat) * px, acc.2.2)
    else
      let sellQty := min (pyFloorDiv (pyInt ((-delta) / px)) lotSize * lotSize) curQty
      if sellQty ≤ 0 then acc
      else (acc.1 ++ [⟨t.symbol, t.exchange, "SELL", sellQty, px, (sellQty : Rat) * px⟩],
            acc.2.1 + (sellQty : Rat) * px, acc.2.2)

/-- `RebalanceService.suggest`.  The `_px` closure and its cache read the
same static bars table, so the cache is not modelled separately; the market
value of positions and position-symbol missing prices come first, then the
target loop. -/
def rebalanceSuggest (lotSize : Int) (s : Store) (targets : List RebTarget)
    (cashReserve : Rat) : Except String RebResult :=
  let cash := s.cash
  let mvMissing := s.positions.foldl
    (fun acc kp =>
      match latestClose s kp.1 with
      | none => (acc.1, acc.2 ++ [kp.1])
      | some p => (acc.1 + (kp.2.qty : Rat) * p, acc.2))
    ((0 : Rat), ([] : List Key))
  let totalEquity := cash + mvMissing.1
  let investable := totalEquity * (1 - cashReserve)
  let cleaned := (targets.map (fun t => { t with symbol := zfill6 t.symbol })).filter
      (fun t => !(decide (t.symbol = "")) && !(decide (t.exchange = "")) && decide (0 < t.weight))
  let wsum := (cleaned.map RebTarget.weight).sum
  if wsum ≤ 0 then Except.error "targets empty or weights invalid"
  else
    let normed := cleaned.map (fun t => { t with weight := t.weight / wsum })
    let final := normed.foldl (rebalanceStep s lotSize investable) ([], cash, mvMissing.2)
    Except.ok ⟨totalEquity, cash, final.2.1, final.1, final.2.2⟩

/-- A portfolio with the given cash, no positions, and a latest close of 1000
for 600519.SSE. -/
def rebStore (c : Rat) : Store :=
  ⟨c, [], [], [], [], [(("600519", "SSE"), ⟨1000, none⟩)], []⟩

/-- C5 counterexample: with portfolio cash 210,000, targets {600519: 1.0},
latest close 1000, lot_size 100 and cash_reserve_ratio 0.05, the planner does
NOT suggest a BUY of qty 200: investable is 199,500, so
floor(199500/1000) = 199 shares floor to one lot of 100. -/
theorem claim5_counterexample :
    ¬ ∃ r, rebalanceSuggest 100 (rebStore 210000) [⟨"600519", "SSE", 1⟩] (1/20)
        = Except.ok r ∧ r.orders.map RebOrder.qty = [200] := by
  have hval : rebalanceSuggest 100 (rebStore 210000) [⟨"600519", "SSE", 1⟩] (1/20)
      = Except.ok ⟨210000, 210000, 110000,
          [⟨"600519", "SSE", "BUY", 100, 1000, 100000⟩], []⟩ := by
    norm_num [rebalanceSuggest, rebalanceStep, rebStore, latestClose, alookup, zfill6,
      pyInt, pyFloorDiv,
      show (6 : Nat) ≤ ("600519" : String).length from by decide,
      show ("600519" : String) ≠ "" from by decide,
      show ("SSE" : String) ≠ "" from by decide]
  rintro ⟨r, h1, h2⟩
  rw [hval] at h1
  injection h1 with h1
  subst h1
  simp at h2

/-- C5 (amended): with cash 10,000 the sub-lot delta of 9,500 is skipped and
the order list is empty; with cash 210,000 the planner suggests exactly one
BUY with qty = 100 (not 200): investable = 199,500, int(199500/1000) = 199,
floored to the 100-lot. -/
theorem claim5_rebalance_worked_example :
    rebalanceSuggest 100 (rebStore 10000) [⟨"600519", "SSE", 1⟩] (1/20)
      = Except.ok ⟨10000, 10000, 10000, [], []⟩ ∧
    rebalanceSuggest 100 (rebStore 210000) [⟨"600519", "SSE", 1⟩] (1/20)
      = Except.ok ⟨210000, 210000, 110000,
          [⟨"600519", "SSE", "BUY", 100, 1000, 100000⟩], []⟩ := by
  constructor
  · norm_num [rebalanceSuggest, rebalanceStep, rebStore, latestClose, alookup, zfill6,
      pyInt, pyFloorDiv,
      show (6 : Nat) ≤ ("600519" : String).length from by decide,
      show ("600519" : String) ≠ "" from by decide,
      show ("SSE" : String) ≠ "" from by decide]
  · norm_num [rebalanceSuggest, rebalanceStep, rebStore, latestClose, alookup, zfill6,
      pyInt, pyFloorDiv,
      show (6 : Nat) ≤ ("600519" : String).length from by decide,
      show ("600519" : String) ≠ "" from by decide,
      show ("SSE" : String) ≠ "" from by decide]

/-! The scoring engine (`src/workbench/services/scoring.py`) and the
`/api/v1/scores/calc` handler. -/

/-- A daily bar as consumed by scoring: the close and the optional amount
(`b.get("amount") or 0.0`). -/
structure ScoreBar where
  close : Rat
  amount : Option Rat
deriving DecidableEq, Repr

/-- The last `n` entries of a list (numpy `xs[-n:]`). -/
def lastN (n : Nat) (l : List Rat) : List Rat := l.drop (l.length - n)

/-- `np.mean` (callers only apply it to non-empty windows). -/
def mean (l : List Rat) : Rat := l.sum / (l.length : Rat)

/-- The scoring breakdown by category. -/
structure ScoreBreakdown where
  trend : Rat
  momentum : Rat
  volatility : Rat
  liquidity : Rat
deriving DecidableEq, Repr

/-- The scoring output (`ScoreResult`; trade_date and metrics dropped,
`data_version.bars_count` kept). -/
structure ScoreOut where
  scoreTotal : Rat
  breakdown : ScoreBreakdown
  reasons : List String
  barsCount : Nat
deriving DecidableEq, Repr

/-- `ScoringService.calc` on an already-fetched bar window.  The log-return
standard deviation `vol20 = std(diff(log(closes[-21:])))` is a transcendental
real; the score depends on it only through its comparisons with 0.03 and
0.06, so it is passed as an input of the embedding. -/
def scoringCalc (bars : List ScoreBar) (vol20 : Rat) : Except String ScoreOut :=
  if bars.length < 60 then Except.error "not enough bars; ingest more history"
  else
    let closes := bars.map ScoreBar.close
    let amounts := bars.map (fun b => b.amount.getD 0)
    let ma20 := mean (lastN 20 closes)
    let ma60 := mean (lastN 60 closes)
    let last := closes.getLastD 0
    let ret20 := closes.getLastD 0 / closes.getD (closes.length - 21) 0 - 1
    let liq20 := mean (lastN 20 amounts)
    let trend := (if last > ma20 then (10 : Rat) else 0)
      + (if ma20 > ma60 then 10 else 0) + (if last > ma60 then 10 else 0)
    let trendReasons := (if last > ma20 then ["price_above_ma20"] else [])
      ++ (if ma20 > ma60 then ["ma20_above_ma60"] else [])
      ++ (if last > ma60 then ["price_above_ma60"] else [])
    let mom := (if ret20 > 0 then (10 : Rat) else 0) + (if ret20 > 1/10 then 10 else 0)
    let momReasons := (if ret20 > 0 then ["ret20_positive"] else [])
      ++ (if ret20 > 1/10 then ["ret20_gt_10pct"] else [])
    let vol := if vol20 < 3/100 then (10 : Rat) else if vol20 < 6/100 then 5 else 0
    let volReasons := if vol20 < 3/100 then ["vol20_low"]
      else if vol20 < 6/100 then ["vol20_mid"] else []
    let liq := if liq20 > 100000000 then (10 : Rat) else if liq20 > 20000000 then 5 else 0
    let liqReasons := if liq20 > 100000000 then ["liq20_gt_1e8"]
      else if liq20 > 20000000 then ["liq20_gt_2e7"] else []
    let score := trend + mom + vol + liq
    let scoreTotal := max 0 (min 100 (score * 2))
    Except.ok ⟨scoreTotal, ⟨trend, mom, vol, liq⟩,
      trendReasons ++ momReasons ++ volReasons ++ liqReasons, bars.length⟩

/-- Trend points as the claim words them (refinement side). -/
def claimTrendPoints (last ma20 ma60 : Rat) : Rat :=
  (if last > ma20 then 10 else 0) + (if ma20 > ma60 then 10 else 0)
    + (if last > ma60 then 10 else 0)

/-- Momentum points as the claim words them. -/
def claimMomentumPoints (ret20 : Rat) : Rat :=
  (if ret20 > 0 then 10 else 0) + (if ret20 > 1/10 then 10 else 0)

/-- Volatility points as the claim words them. -/
def claimVolatilityPoints (v : Rat) : Rat :=
  if v < 3/100 then 10 else if v < 6/100 then 5 else 0

/-- Liquidity points as the claim words them. -/
def claimLiquidityPoints (a : Rat) : Rat :=
  if a > 100000000 then 10 else if a > 20000000 then 5 else 0

/-- The last close of a bar window. -/
def lastCloseOf (bars : List ScoreBar) : Rat := (bars.map ScoreBar.close).getLastD 0

/-- MA20 of a bar window. -/
def ma20Of (bars : List ScoreBar) : Rat := mean (lastN 20 (bars.map ScoreBar.close))

/-- MA60 of a bar window. -/
def ma60Of (bars : List ScoreBar) : Rat := mean (lastN 60 (bars.map ScoreBar.close))

/-- The 20-bar return `closes[-1]/closes[-21] - 1`. -/
def ret20Of (bars : List ScoreBar) : Rat :=
  lastCloseOf bars / (bars.map ScoreBar.close).getD (bars.length - 21) 0 - 1

/-- The 20-bar average amount. -/
def liq20Of (bars : List ScoreBar) : Rat :=
  mean (lastN 20 (bars.map (fun b => b.amount.getD 0)))

theorem getLastQ_cons_replicate (m : Nat) (c : Rat) :
    (c :: List.replicate m c).getLast? = some c := by
  induction m with
  | zero => rfl
  | succ k ih =>
    rw [List.replicate_succ, List.getLast?_cons_cons]
    exact ih

theorem lastN_replicate (k n : Nat) (c : Rat) :
    lastN k (List.replicate n c) = List.replicate (n - (n - k)) c := by
  simp [lastN, List.drop_replicate]

theorem mean_replicate {n : Nat} (hn : n ≠ 0) (c : Rat) :
    mean (List.replicate n c) = c := by
  have hcast : (n : Rat) ≠ 0 := Nat.cast_ne_zero.mpr hn
  simp [mean, List.sum_replicate, nsmul_eq_mul]
  field_simp

/-- C6: whenever scoring succeeds, the persisted breakdown follows exactly
the claim's per-category point rules, the total is
min(100, max(0, 2·(trend+momentum+volatility+liquidity))), the total lies in
[0, 100], and a constant close series yields a trend breakdown of 0. -/
theorem claim6_score_total_formula (bars : List ScoreBar) (vol20 : Rat) (out : ScoreOut)
    (h : scoringCalc bars vol20 = Except.ok out) :
    (out.breakdown.trend = claimTrendPoints (lastCloseOf bars) (ma20Of bars) (ma60Of bars) ∧
     out.breakdown.momentum = claimMomentumPoints (ret20Of bars) ∧
     out.breakdown.volatility = claimVolatilityPoints vol20 ∧
     out.breakdown.liquidity = claimLiquidityPoints (liq20Of bars)) ∧
    out.scoreTotal = min 100 (max 0
      (2 * (out.breakdown.trend + out.breakdown.momentum
        + out.breakdown.volatility + out.breakdown.liquidity))) ∧
    0 ≤ out.scoreTotal ∧ out.scoreTotal ≤ 100 ∧
    (∀ c : Rat, bars.map ScoreBar.close = List.replicate bars.length c →
      out.breakdown.trend = 0) := by
  by_cases hlen : bars.length < 60
  · simp [scoringCalc, hlen] at h
  · simp only [scoringCalc, if_neg hlen, Except.ok.injEq] at h
    subst h
    refine ⟨⟨?_, ?_, ?_, ?_⟩, ?_, ?_, ?_, ?_⟩
    · simp only [claimTrendPoints, lastCloseOf, ma20Of, ma60Of]
    · simp only [claimMomentumPoints, ret20Of, lastCloseOf, List.length_map]
    · simp only [claimVolatilityPoints]
    · simp only [claimLiquidityPoints, liq20Of]
    · simp only
      rw [max_min_distrib_left]
      norm_num [mul_comm]
    · simp only
      exact le_max_left 0 _
    · simp only
      exact max_le (by norm_num) (min_le_left 100 _)
    · intro c hc
      have hn : bars.length ≠ 0 := by omega
      have hlast : (bars.map ScoreBar.close).getLastD 0 = c := by
        rw [hc]
        cases hb : bars.length with
        | zero => exact absurd hb hn
        | succ m =>
          rw [List.replicate_succ]
          simp [getLastQ_cons_replicate]
      have hma20 : mean (lastN 20 (bars.map ScoreBar.close)) = c := by
        rw [hc, lastN_replicate]
        exact mean_replicate (by omega) c
      have hma60 : mean (lastN 60 (bars.map ScoreBar.close)) = c := by
        rw [hc, lastN_replicate]
        exact mean_replicate (by omega) c
      simp only [hlast, hma20, hma60, lt_irrefl, if_neg, if_false]
      norm_num

/-- `BarsRepo.list_bars`: `ORDER BY trade_date DESC LIMIT limit` then
reversed, i.e. the last `limit` stored bars in trade-date order (`stored` is
the table content for the (symbol, exchange, adj) in ascending date order). -/
def listBars (stored : List ScoreBar) (limit : Nat) : List ScoreBar :=
  stored.drop (stored.length - limit)

/-- An API error envelope: error code and HTTP status. -/
structure ApiError where
  code : String
  statusCode : Nat
deriving DecidableEq, Repr

/-- The handler's `except ValueError` arm: any ValueError from `calc` maps to
`DATA_NOT_READY` with HTTP status 409. -/
def toApiErr : Except String ScoreOut → Except ApiError ScoreOut
  | Except.error _ => Except.error ⟨"DATA_NOT_READY", 409⟩
  | Except.ok r => Except.ok r

/-- The `/api/v1/scores/calc` handler composed with `ScoringService.calc`:
`calc` reads `list_bars(limit=120)` and raises ValueError when fewer than 60
bars come back; the handler maps the ValueError to `DATA_NOT_READY` with
HTTP status 409.  (The insert into the scores table is dropped; it cannot
raise ValueError.) -/
def scoresCalcApi (stored : List ScoreBar) (vol20 : Rat) : Except ApiError ScoreOut :=
  toApiErr (scoringCalc (listBars stored 120) vol20)

theorem scoringCalc_err {bars : List ScoreBar} {v : Rat} (h : bars.length < 60) :
    scoringCalc bars v = Except.error "not enough bars; ingest more history" := by
  rw [scoringCalc, if_pos h]

theorem scoringCalc_ok {bars : List ScoreBar} {v : Rat} (h : ¬ bars.length < 60) :
    ∃ out, scoringCalc bars v = Except.ok out :=
  ⟨_, by rw [scoringCalc, if_neg h]⟩

/-- C7: score calculation fails with DATA_NOT_READY (HTTP 409) exactly when
fewer than 60 bars are stored; with at least 60 stored bars this
precondition never fires and the computation succeeds. -/
theorem claim7_data_not_ready_threshold (stored : List ScoreBar) (vol20 : Rat) :
    (stored.length < 60 →
      scoresCalcApi stored vol20 = Except.error ⟨"DATA_NOT_READY", 409⟩) ∧
    (60 ≤ stored.length → ∃ out, scoresCalcApi stored vol20 = Except.ok out) := by
  constructor
  · intro hlt
    have hlen : (listBars stored 120).length < 60 := by
      simp only [listBars, List.length_drop]
      omega
    rw [scoresCalcApi, scoringCalc_err hlen]
    rfl
  · intro hge
    have hlen : ¬ (listBars stored 120).length < 60 := by
      simp only [listBars, List.length_drop]
      omega
    obtain ⟨out, hout⟩ := @scoringCalc_ok _ vol20 hlen
    exact ⟨out, by rw [scoresCalcApi, hout]; rfl⟩

/-- 60 constant bars with close 1000 and no amount. -/
def cBars : List ScoreBar := List.replicate 60 ⟨1000, none⟩

/-- The scoring output on `cBars` with vol20 = 0: only the volatility rule
fires (raw 10, doubled to 20). -/
def cOut : ScoreOut := ⟨20, ⟨0, 0, 10, 0⟩, ["vol20_low"], 60⟩

theorem getLastD_replicate {n : Nat} (hn : n ≠ 0) (c : Rat) :
    (List.replicate n c).getLastD 0 = c := by
  cases n with
  | zero => exact absurd rfl hn
  | succ m =>
    rw [List.replicate_succ]
    simp [getLastQ_cons_replicate]

theorem getD_replicate {n i : Nat} (h : i < n) (c : Rat) :
    (List.replicate n c).getD i 0 = c := by
  simp [List.getD_eq_getElem?_getD, List.getElem?_replicate, h]

/-- Scoring a constant close series (no amounts) with a small vol20: only
the low-volatility rule fires. -/
theorem scoringCalc_const {n : Nat} (hn : 60 ≤ n) {c : Rat} (hc : c ≠ 0)
    {v : Rat} (hv : v < 3/100) :
    scoringCalc (List.replicate n ⟨c, none⟩) v
      = Except.ok ⟨20, ⟨0, 0, 10, 0⟩, ["vol20_low"], n⟩ := by
  have hlen : ¬ (List.replicate n (⟨c, none⟩ : ScoreBar)).length < 60 := by
    rw [List.length_replicate]
    omega
  rw [scoringCalc, if_neg hlen]
  have hmapc : (List.replicate n (⟨c, none⟩ : ScoreBar)).map ScoreBar.close
      = List.replicate n c := by simp
  have hmapa : (List.replicate n (⟨c, none⟩ : ScoreBar)).map (fun b => b.amount.getD 0)
      = List.replicate n (0 : Rat) := by simp
  simp only [hmapc, hmapa, lastN_replicate, List.length_replicate,
    getLastD_replicate (by omega : n ≠ 0), getD_replicate (by omega : n - 21 < n),
    mean_replicate (by omega : n - (n - 20) ≠ 0), mean_replicate (by omega : n - (n - 60) ≠ 0),
    div_self hc]
  norm_num [hv]

/-- Witness for C6 at the constant 60-bar series. -/
theorem claim6_witness :
    scoringCalc cBars 0 = Except.ok cOut ∧
    0 ≤ cOut.scoreTotal ∧ cOut.scoreTotal ≤ 100 ∧ cOut.breakdown.trend = 0 := by
  have h : scoringCalc cBars 0 = Except.ok cOut := by
    rw [cBars, cOut]
    exact scoringCalc_const (by norm_num) (by norm_num) (by norm_num)
  have hthm := claim6_score_total_formula cBars 0 cOut h
  exact ⟨h, hthm.2.2.1, hthm.2.2.2.1,
    hthm.2.2.2.2 1000 (by simp [cBars])⟩

/-- Witness for C7: 59 stored bars give 409 DATA_NOT_READY; 60 succeed. -/
theorem claim7_witness :
    scoresCalcApi (List.replicate 59 (⟨1000, some 1⟩ : ScoreBar)) 0
      = Except.error ⟨"DATA_NOT_READY", 409⟩ ∧
    ∃ out, scoresCalcApi cBars 0 = Except.ok out := by
  exact ⟨(claim7_data_not_ready_threshold _ 0).1 (by simp),
    (claim7_data_not_ready_threshold cBars 0).2 (by simp [cBars])⟩

/-! The risk engine (`src/workbench/services/risk.py`, with the
time-dependent checks of `risk_rules.py` as oracle inputs). -/

/-- The rule values consumed by `RiskService.check`
(`RiskRulesRepo.get_all_rules` merges documented env defaults with DB
overrides; the merged values are taken as an input here, with the documented
defaults below). -/
structure RiskRules where
  maxPositionPerSymbol : Rat
  minCashFrac : Rat
  maxOrderValue : Rat
  minOrderValue : Rat
  priceDeviationLimit : Rat
  lotSize : Int
deriving DecidableEq, Repr

/-- The documented defaults: 0.25, 0.05, 200000, 1000, 0.03, 100. -/
def defaultRiskRules : RiskRules := ⟨1/4, 1/20, 200000, 1000, 3/100, 100⟩

/-- The time-dependent findings of `RiskRulesRepo`: they read the wall clock
and today's `sim_orders` / `sim_trades` rows, so whether each fires is an
input of the embedding.  Each firing check appends its fixed item code at
level WARN, exactly as in the source. -/
structure RiskOracles where
  maxOrdersFires : Bool
  freqFires : Key → Bool
  dailyValueFires : Rat → Bool

/-- Oracles in which no time-dependent check fires (fresh day, no prior
orders). -/
def noOracles : RiskOracles := ⟨false, fun _ => false, fun _ => false⟩

/-- The batch-level item code of the claim. -/
def batchCode : String := "RISK_PRICE_MISSING_FOR_SOME_POSITIONS"

/-- Whether an items list carries a given code. -/
def hasCode (items : List RiskItem) (c : String) : Bool :=
  items.any (fun it => it.code == c)

/-- `RiskRulesRepo.check_price_limit`: limit-up/limit-down detection from the
latest bar's close and pre_close.  A falsy `latest_price` (absent or 0.0), a
missing bar row or a NULL pre_close mean no finding. -/
def checkPriceLimit (s : Store) (k : Key) (side : String) (latestPrice : Option Rat) :
    Option RiskItem :=
  match latestPrice with
  | none => none
  | some lp =>
    if lp = 0 then none
    else
      match alookup s.bars k with
      | none => none
      | some bar =>
        match bar.preClose with
        | none => none
        | some pre =>
          let changePct := (bar.close - pre) / pre
          if changePct ≥ 99/1000 then
            some ⟨"RISK_LIMIT_UP", if side = "SELL" then "WARN" else "FAIL"⟩
          else if changePct ≤ -(99/1000) then
            some ⟨"RISK_LIMIT_DOWN", if side = "BUY" then "WARN" else "FAIL"⟩
          else none

/-- `status = "WARN" if status != "FAIL"`. -/
def bumpWarn (status : String) : String := if status = "FAIL" then status else "WARN"

/-- The sequentially simulated state of the per-draft loop. -/
structure RiskSt where
  items : List RiskItem
  status : String
  cashNow : Rat
  posQty : List (Key × Int)
deriving DecidableEq, Repr

/-- `items.append(...)` followed by a status assignment. -/
def addRiskItem (st : RiskSt) (it : RiskItem) (status : String) : RiskSt :=
  { st with items := st.items ++ [it], status := status }

/-- Price-deviation check: only when the draft carries an explicit price. -/
def stepDeviation (rules : RiskRules) (latest : Rat) (d : Leg) (st : RiskSt) : RiskSt :=
  match d.price with
  | none => st
  | some p =>
    if |p - latest| / latest > rules.priceDeviationLimit then
      addRiskItem st ⟨"RISK_PRICE_DEVIATION", "WARN"⟩ (bumpWarn st.status)
    else st

/-- `check_order_frequency` (BUY only; the time-window query is an oracle). -/
def stepFreq (orc : RiskOracles) (k : Key) (d : Leg) (st : RiskSt) : RiskSt :=
  if d.side = "BUY" ∧ orc.freqFires k = true then
    addRiskItem st ⟨"RISK_ORDER_FREQUENCY", "WARN"⟩ (bumpWarn st.status)
  else st

/-- `check_price_limit`: FAIL level forces FAIL, otherwise WARN-bump. -/
def stepLimit (s : Store) (k : Key) (latest : Rat) (d : Leg) (st : RiskSt) : RiskSt :=
  match checkPriceLimit s k d.side (some latest) with
  | none => st
  | some item =>
    addRiskItem st item (if item.level = "FAIL" then "FAIL" else bumpWarn st.status)

/-- `check_daily_order_value` (BUY only; the daily sum is an oracle). -/
def stepDaily (orc : RiskOracles) (orderValue : Rat) (d : Leg) (st : RiskSt) : RiskSt :=
  if d.side = "BUY" ∧ orc.dailyValueFires orderValue = true then
    addRiskItem st ⟨"RISK_DAILY_VALUE_LIMIT", "WARN"⟩ (bumpWarn st.status)
  else st

/-- Minimum order value check (WARN). -/
def stepMinVal (rules : RiskRules) (orderValue : Rat) (st : RiskSt) : RiskSt :=
  if orderValue < rules.minOrderValue then
    addRiskItem st ⟨"RISK_MIN_ORDER_VALUE", "WARN"⟩ (bumpWarn st.status)
  else st

/-- Maximum order value check (WARN). -/
def stepMaxVal (rules : RiskRules) (orderValue : Rat) (st : RiskSt) : RiskSt :=
  if orderValue > rules.maxOrderValue then
    addRiskItem st ⟨"RISK_MAX_ORDER_VALUE", "WARN"⟩ (bumpWarn st.status)
  else st

/-- The settlement tail of the loop body: SELL position check and cash-back,
unsupported side, insufficient cash, then the simulated BUY with the
min-cash-ratio and per-symbol position-limit checks. -/
def stepSettle (rules : RiskRules) (k : Key) (latest totalEquity orderValue : Rat)
    (d : Leg) (st : RiskSt) : RiskSt :=
  let curQty := (alookup st.posQty k).getD 0
  if d.side = "SELL" then
    if d.qty > curQty then
      addRiskItem st ⟨"RISK_SELL_QTY_EXCEEDS_POSITION", "FAIL"⟩ "FAIL"
    else
      { st with cashNow := st.cashNow + orderValue,
                posQty := aset st.posQty k (curQty - d.qty) }
  else if ¬ d.side = "BUY" then
    addRiskItem st ⟨"RISK_UNSUPPORTED_SIDE", "FAIL"⟩ "FAIL"
  else if orderValue > st.cashNow then
    addRiskItem st ⟨"RISK_INSUFFICIENT_CASH", "FAIL"⟩ "FAIL"
  else
    let st1 := { st with cashNow := st.cashNow - orderValue,
                         posQty := aset st.posQty k (curQty + d.qty) }
    if 0 < totalEquity ∧ st1.cashNow / totalEquity < rules.minCashFrac then
      addRiskItem st1 ⟨"RISK_MIN_CASH_RATIO", "FAIL"⟩ "FAIL"
    else
      let posValue := (((alookup st1.posQty k).getD 0 : Int) : Rat) * latest
      if 0 < totalEquity ∧ posValue / totalEquity > rules.maxPositionPerSymbol then
        addRiskItem st1 ⟨"RISK_POSITION_LIMIT", "FAIL"⟩ "FAIL"
      else st1

/-- The body of the per-draft loop of `RiskService.check`, in source order
(each step function is one source statement block).  The source upper-cases
the side; the embedding takes sides as already upper-case (as the draft API
produces them).  The per-request price cache is not modelled: it reads the
same static bars table. -/
def riskCheckDraft (rules : RiskRules) (orc : RiskOracles) (s : Store)
    (totalEquity : Rat) (st : RiskSt) (d : Leg) : RiskSt :=
  let k : Key := (d.symbol, d.exchange)
  if d.qty ≤ 0 ∨ ¬ Int.emod d.qty rules.lotSize = 0 then
    addRiskItem st ⟨"RISK_INVALID_QTY", "FAIL"⟩ "FAIL"
  else
    match latestClose s k with
    | none => addRiskItem st ⟨"DATA_NOT_READY", "FAIL"⟩ "FAIL"
    | some latest =>
      let orderValue := d.price.getD latest * (d.qty : Rat)
      stepSettle rules k latest totalEquity orderValue d
        (stepMaxVal rules orderValue
          (stepMinVal rules orderValue
            (stepDaily orc orderValue d
              (stepLimit s k latest d
                (stepFreq orc k d
                  (stepDeviation rules latest d st))))))

/-- `RiskService._positions_qty_map`. -/
def positionsQtyMap (s : Store) : List (Key × Int) :=
  s.positions.map (fun kp => (kp.1, kp.2.qty))

/-- `RiskService._positions_market_value`: mark-to-market the quantity map,
flagging instruments with no latest close. -/
def positionsMarketValue (s : Store) (posQty : List (Key × Int)) : Rat × Bool :=
  posQty.foldl
    (fun acc kq =>
      match latestClose s kq.1 with
      | none => (acc.1, true)
      | some px => (acc.1 + (kq.2 : Rat) * px, acc.2))
    ((0 : Rat), false)

/-- Any held instrument without a latest close. -/
def posPriceMissing (s : Store) : Bool :=
  (positionsQtyMap s).any (fun kq => (latestClose s kq.1).isNone)

/-- The pre-check and the per-draft loop of `RiskService.check`: initial
status PASS, the `check_max_orders_per_day` pre-check (WARN), equity
mark-to-market with `total_equity = cash` when non-positive, then the
sequential draft simulation. -/
def riskLoop (rules : RiskRules) (orc : RiskOracles) (s : Store)
    (drafts : List Leg) : RiskSt :=
  let cash := s.cash
  let posQty := positionsQtyMap s
  let pre : List RiskItem × String :=
    if orc.maxOrdersFires then ([⟨"RISK_MAX_ORDERS_PER_DAY", "WARN"⟩], "WARN")
    else ([], "PASS")
  let mvm := positionsMarketValue s posQty
  let te0 := cash + mvm.1
  let te := if te0 ≤ 0 then cash else te0
  drafts.foldl (riskCheckDraft rules orc s te) ⟨pre.1, pre.2, cash, posQty⟩

/-- `RiskService.check`: run the loop, append the batch-level
missing-price item only when the status so far is PASS (downgrading to
WARN), persist the result row under the given riskcheck id (uuid modelled as
an input) and return the payload.  The same-portfolio validation is outside
the single-portfolio model. -/
def riskCheck (rules : RiskRules) (orc : RiskOracles) (s : Store)
    (drafts : List Leg) (riskcheckId : String) :
    Store × Except String (String × List RiskItem) :=
  if drafts.isEmpty then (s, Except.error "draft_ids empty")
  else
    let mvm := positionsMarketValue s (positionsQtyMap s)
    let stF := riskLoop rules orc s drafts
    let res : List RiskItem × String :=
      if mvm.2 = true ∧ stF.status = "PASS" then
        (stF.items ++ [⟨batchCode, "WARN"⟩], "WARN")
      else (stF.items, stF.status)
    ({ s with riskchecks := s.riskchecks
        ++ [(riskcheckId, ⟨res.2, res.1, drafts.map Leg.draftId⟩)] },
      Except.ok (res.2, res.1))

theorem hasCode_append (l : List RiskItem) (it : RiskItem) (c : String) :
    hasCode (l ++ [it]) c = (hasCode l c || (it.code == c)) := by
  simp [hasCode, List.any_append]

theorem checkPriceLimit_code {s : Store} {k : Key} {side : String} {lp : Option Rat}
    {item : RiskItem} (h : checkPriceLimit s k side lp = some item) :
    item.code = "RISK_LIMIT_UP" ∨ item.code = "RISK_LIMIT_DOWN" := by
  unfold checkPriceLimit at h
  repeat' split at h
  all_goals try simp_all
  all_goals try (split_ifs at h <;> try simp_all)
  all_goals (cases h; simp)

theorem code_ne_batchCode :
    (("RISK_INVALID_QTY" == batchCode) = false) ∧
    (("DATA_NOT_READY" == batchCode) = false) ∧
    (("RISK_PRICE_DEVIATION" == batchCode) = false) ∧
    (("RISK_ORDER_FREQUENCY" == batchCode) = false) ∧
    (("RISK_LIMIT_UP" == batchCode) = false) ∧
    (("RISK_LIMIT_DOWN" == batchCode) = false) ∧
    (("RISK_DAILY_VALUE_LIMIT" == batchCode) = false) ∧
    (("RISK_MIN_ORDER_VALUE" == batchCode) = false) ∧
    (("RISK_MAX_ORDER_VALUE" == batchCode) = false) ∧
    (("RISK_SELL_QTY_EXCEEDS_POSITION" == batchCode) = false) ∧
    (("RISK_UNSUPPORTED_SIDE" == batchCode) = false) ∧
    (("RISK_INSUFFICIENT_CASH" == batchCode) = false) ∧
    (("RISK_MIN_CASH_RATIO" == batchCode) = false) ∧
    (("RISK_POSITION_LIMIT" == batchCode) = false) ∧
    (("RISK_MAX_ORDERS_PER_DAY" == batchCode) = false) := by
  decide

theorem hasCode_addRiskItem (st : RiskSt) (it : RiskItem) (σ : String) (c : String) :
    hasCode (addRiskItem st it σ).items c = (hasCode st.items c || (it.code == c)) := by
  simp [addRiskItem, hasCode_append]

theorem stepDeviation_nb (rules : RiskRules) (latest : Rat) (d : Leg) (st : RiskSt)
    (h : hasCode st.items batchCode = false) :
    hasCode (stepDeviation rules latest d st).items batchCode = false := by
  unfold stepDeviation
  repeat' split <;> simp [hasCode_addRiskItem, h, code_ne_batchCode]

theorem stepFreq_nb (orc : RiskOracles) (k : Key) (d : Leg) (st : RiskSt)
    (h : hasCode st.items batchCode = false) :
    hasCode (stepFreq orc k d st).items batchCode = false := by
  unfold stepFreq
  repeat' split <;> simp [hasCode_addRiskItem, h, code_ne_batchCode]

theorem stepLimit_nb (s : Store) (k : Key) (latest : Rat) (d : Leg) (st : RiskSt)
    (h : hasCode st.items batchCode = false) :
    hasCode (stepLimit s k latest d st).items batchCode = false := by
  unfold stepLimit
  cases hcp : checkPriceLimit s k d.side (some latest) with
  | none => exact h
  | some item =>
    rcases checkPriceLimit_code hcp with hc | hc <;>
      simp [hasCode_addRiskItem, h, hc, code_ne_batchCode]

theorem stepDaily_nb (orc : RiskOracles) (orderValue : Rat) (d : Leg) (st : RiskSt)
    (h : hasCode st.items batchCode = false) :
    hasCode (stepDaily orc orderValue d st).items batchCode = false := by
  unfold stepDaily
  repeat' split <;> simp [hasCode_addRiskItem, h, code_ne_batchCode]

theorem stepMinVal_nb (rules : RiskRules) (orderValue : Rat) (st : RiskSt)
    (h : hasCode st.items batchCode = false) :
    hasCode (stepMinVal rules orderValue st).items batchCode = false := by
  unfold stepMinVal
  repeat' split <;> simp [hasCode_addRiskItem, h, code_ne_batchCode]

theorem stepMaxVal_nb (rules : RiskRules) (orderValue : Rat) (st : RiskSt)
    (h : hasCode st.items batchCode = false) :
    hasCode (stepMaxVal rules orderValue st).items batchCode = false := by
  unfold stepMaxVal
  repeat' split <;> simp [hasCode_addRiskItem, h, code_ne_batchCode]

theorem stepSettle_nb (rules : RiskRules) (k : Key) (latest te ov : Rat)
    (d : Leg) (st : RiskSt)
    (h : hasCode st.items batchCode = false) :
    hasCode (stepSettle rules k latest te ov d st).items batchCode = false := by
  unfold stepSettle
  dsimp only
  repeat' split
  all_goals try (first | exact h | simp [hasCode_addRiskItem, h, code_ne_batchCode])

/-- No item appended by the per-draft loop body carries the batch-level code. -/
theorem riskCheckDraft_no_batch (rules : RiskRules) (orc : RiskOracles) (s : Store)
    (te : Rat) (st : RiskSt) (d : Leg)
    (h : hasCode st.items batchCode = false) :
    hasCode (riskCheckDraft rules orc s te st d).items batchCode = false := by
  unfold riskCheckDraft
  dsimp only
  split
  · simp [hasCode_addRiskItem, h, code_ne_batchCode]
  · split
    · simp [hasCode_addRiskItem, h, code_ne_batchCode]
    · exact stepSettle_nb _ _ _ _ _ _ _
        (stepMaxVal_nb _ _ _
          (stepMinVal_nb _ _ _
            (stepDaily_nb _ _ _ _
              (stepLimit_nb _ _ _ _ _
                (stepFreq_nb _ _ _ _
                  (stepDeviation_nb _ _ _ _ h))))))

theorem foldDrafts_no_batch (rules : RiskRules) (orc : RiskOracles) (s : Store)
    (te : Rat) : ∀ (ds : List Leg) (st : RiskSt),
    hasCode st.items batchCode = false →
    hasCode (ds.foldl (riskCheckDraft rules orc s te) st).items batchCode = false := by
  intro ds
  induction ds with
  | nil => intro st h; exact h
  | cons d rest ih =>
    intro st h
    rw [List.foldl_cons]
    exact ih _ (riskCheckDraft_no_batch rules orc s te st d h)

/-- The loop (pre-check included) never emits the batch-level code. -/
theorem riskLoop_no_batch (rules : RiskRules) (orc : RiskOracles) (s : Store)
    (drafts : List Leg) :
    hasCode (riskLoop rules orc s drafts).items batchCode = false := by
  unfold riskLoop
  apply foldDrafts_no_batch
  cases orc.maxOrdersFires <;>
    simp [hasCode, batchCode,
      show ¬ ("RISK_MAX_ORDERS_PER_DAY" : String) = "RISK_PRICE_MISSING_FOR_SOME_POSITIONS" from by decide]

theorem positionsMarketValue_missing_aux (s : Store) :
    ∀ (l : List (Key × Int)) (v : Rat) (b : Bool),
    (l.foldl (fun acc kq =>
      match latestClose s kq.1 with
      | none => (acc.1, true)
      | some px => (acc.1 + (kq.2 : Rat) * px, acc.2)) (v, b)).2
      = (b || l.any (fun kq => (latestClose s kq.1).isNone)) := by
  intro l
  induction l with
  | nil => intro v b; simp
  | cons kq rest ih =>
    intro v b
    rw [List.foldl_cons, List.any_cons]
    cases hlc : latestClose s kq.1 with
    | none => simp [hlc, ih]
    | some px => simp [hlc, ih]

/-- The missing flag of `_positions_market_value` is exactly "some held
symbol lacks a latest close". -/
theorem positionsMarketValue_missing (s : Store) :
    (positionsMarketValue s (positionsQtyMap s)).2 = posPriceMissing s := by
  unfold positionsMarketValue posPriceMissing
  rw [positionsMarketValue_missing_aux]
  simp

/-- C4 (amended): the batch-level RISK_PRICE_MISSING_FOR_SOME_POSITIONS item
is appended if and only if some held symbol lacks a latest close AND the
status produced by the pre-check and per-draft loop is still PASS (the item
then downgrades the persisted status to WARN).  When any per-draft check has
already produced WARN or FAIL, the item is not appended even though prices
are missing — not "regardless of what verdict the per-draft checks
produced". -/
theorem claim4_price_missing_item_only_on_pass (rules : RiskRules) (orc : RiskOracles)
    (s : Store) (drafts : List Leg) (rid : String) (s2 : Store) (status : String)
    (items : List RiskItem)
    (h : riskCheck rules orc s drafts rid = (s2, Except.ok (status, items))) :
    (hasCode items batchCode = true
      ↔ (posPriceMissing s = true ∧ (riskLoop rules orc s drafts).status = "PASS")) ∧
    (posPriceMissing s = true → ¬ status = "PASS") ∧
    (hasCode items batchCode = true → status = "WARN") := by
  by_cases hemp : drafts.isEmpty
  · simp [riskCheck, hemp] at h
  · simp only [riskCheck, hemp, Bool.false_eq_true, if_false, if_neg] at h
    by_cases hcond : (positionsMarketValue s (positionsQtyMap s)).2 = true
        ∧ (riskLoop rules orc s drafts).status = "PASS"
    · rw [if_pos hcond] at h
      simp only [Prod.mk.injEq, Except.ok.injEq] at h
      obtain ⟨_, hst, hit⟩ := h
      subst hst
      subst hit
      rw [positionsMarketValue_missing] at hcond
      refine ⟨⟨fun _ => hcond, fun _ => ?_⟩, fun _ => by decide, fun _ => rfl⟩
      rw [hasCode_append, riskLoop_no_batch]
      simp [batchCode]
    · rw [if_neg hcond] at h
      simp only [Prod.mk.injEq, Except.ok.injEq] at h
      obtain ⟨_, hst, hit⟩ := h
      subst hst
      subst hit
      rw [positionsMarketValue_missing] at hcond
      have hno := riskLoop_no_batch rules orc s drafts
      refine ⟨⟨fun hc => absurd hc (by simp [hno]), fun hc => absurd hc hcond⟩,
        fun hm hp => hcond ⟨hm, hp⟩, fun hc => absurd hc (by simp [hno])⟩

/-- Portfolio holding 000001.SZSE (no bar, so its price is missing), with a
bar for 600519.SSE (close 10, pre_close 10) and plenty of cash. -/
def c4Store : Store :=
  ⟨1000000, [(("000001", "SZSE"), ⟨100, 5⟩)], [], [], [],
    [(("600519", "SSE"), ⟨10, some 10⟩)], []⟩

/-- A draft whose qty 50 is not a lot multiple: the loop FAILs on it. -/
def c4FailDrafts : List Leg := [⟨"d1", "600519", "SSE", "BUY", 50, none⟩]

/-- A clean draft (qty 100, value 1000): every per-draft check passes. -/
def c4PassDrafts : List Leg := [⟨"d1", "600519", "SSE", "BUY", 100, none⟩]

/-- C4 counterexample: a held symbol lacks a latest close, yet because a
per-draft check already produced FAIL (qty not a lot multiple), the
persisted items list does NOT contain RISK_PRICE_MISSING_FOR_SOME_POSITIONS
— refuting "regardless of what verdict the per-draft checks produced". -/
theorem claim4_counterexample :
    (∃ kp ∈ c4Store.positions, latestClose c4Store kp.1 = none) ∧
    (riskCheck defaultRiskRules noOracles c4Store c4FailDrafts "rc").2
      = Except.ok ("FAIL", [⟨"RISK_INVALID_QTY", "FAIL"⟩]) ∧
    hasCode [⟨"RISK_INVALID_QTY", "FAIL"⟩] batchCode = false := by
  refine ⟨by decide, ?_, by decide⟩
  norm_num [riskCheck, riskLoop, riskCheckDraft, addRiskItem, stepDeviation, stepFreq,
    stepLimit, stepDaily, stepMinVal, stepMaxVal, stepSettle,
    positionsMarketValue, positionsQtyMap,
    checkPriceLimit, latestClose, alookup, aset, bumpWarn, hasCode, batchCode,
    defaultRiskRules, noOracles, c4Store, c4FailDrafts,
    show ¬ Int.emod 50 100 = 0 from by decide,
    show ¬ ("600519" : String) = "000001" from by decide,
    show ¬ ("000001" : String) = "600519" from by decide,
    show ¬ ("BUY" : String) = "SELL" from by decide,
    show ¬ ("SELL" : String) = "BUY" from by decide,
    show ¬ ("FAIL" : String) = "PASS" from by decide,
    show ¬ ("PASS" : String) = "FAIL" from by decide,
    show ¬ ("WARN" : String) = "PASS" from by decide,
    show ¬ ("WARN" : String) = "FAIL" from by decide]

/-- Witness for C4 (amended): on a clean draft with a missing-price position
the loop status is PASS, so the batch item is appended and the status is
downgraded to WARN. -/
theorem claim4_witness :
    (riskCheck defaultRiskRules noOracles c4Store c4PassDrafts "rc").2
      = Except.ok ("WARN", [⟨batchCode, "WARN"⟩]) ∧
    posPriceMissing c4Store = true ∧
    (riskLoop defaultRiskRules noOracles c4Store c4PassDrafts).status = "PASS" := by
  have hsnd : (riskCheck defaultRiskRules noOracles c4Store c4PassDrafts "rc").2
      = Except.ok ("WARN", [⟨batchCode, "WARN"⟩]) := by
    norm_num [riskCheck, riskLoop, riskCheckDraft, addRiskItem, stepDeviation, stepFreq,
      stepLimit, stepDaily, stepMinVal, stepMaxVal, stepSettle,
      positionsMarketValue, positionsQtyMap,
      checkPriceLimit, latestClose, alookup, aset, bumpWarn, batchCode,
      defaultRiskRules, noOracles, c4Store, c4PassDrafts,
      show Int.emod 100 100 = 0 from by decide,
      show ¬ ("600519" : String) = "000001" from by decide,
      show ¬ ("000001" : String) = "600519" from by decide,
      show ¬ ("BUY" : String) = "SELL" from by decide,
      show ¬ ("SELL" : String) = "BUY" from by decide,
      show ¬ ("FAIL" : String) = "PASS" from by decide,
      show ¬ ("PASS" : String) = "FAIL" from by decide,
      show ¬ ("WARN" : String) = "PASS" from by decide,
      show ¬ ("WARN" : String) = "FAIL" from by decide]
  have h : riskCheck defaultRiskRules noOracles c4Store c4PassDrafts "rc"
      = ((riskCheck defaultRiskRules noOracles c4Store c4PassDrafts "rc").1,
          Except.ok ("WARN", [⟨batchCode, "WARN"⟩])) := by
    rw [← hsnd]
  have hthm := claim4_price_missing_item_only_on_pass defaultRiskRules noOracles c4Store
    c4PassDrafts "rc" _ _ _ h
  have hmp := hthm.1.mp (by decide)
  exact ⟨hsnd, hmp.1, hmp.2⟩

end Workbench
